import Mathlib
set_option linter.unreachableTactic false
set_option linter.unusedTactic false

/-!
# Verification of the deepstream.io record-synchronization client core

A shallow embedding of the core of a realtime record-synchronization client:

* `src/utils/utils.js` — `splitRev`, `compareVersions` (version-token order);
* `src/record/json-path.js` — `tokenize`, `get`, `set`, `patch` over JSON trees
  with structural sharing;
* `src/record/record.js` — the per-record state machine (`set`, `_onRead`,
  `_applyUpdate`, `_dispatchUpdate`, `destroy`, `whenReady`, `discard`);
* `src/record/record-handler.js` — the reference-counted registry
  (`getRecord`, `discard`, `_prune`);
* `src/message/connection.js` — the heartbeat check and the
  `CONNECTION` `PING`/`PONG` handling.

JavaScript reference identity (`===`) on composite values is modelled by
threading an explicit "result is reference-identical to the old input"
Boolean through the structural-sharing functions: the source code only ever
compares a function result against the reference it was derived from, so the
flag captures exactly those comparisons.  JavaScript numbers are IEEE-754
binary64 doubles: the integer values flowing through the version arithmetic
(`parseInt` results and the `start + 1` increment of `_dispatchUpdate`) are
modelled as exact integers rounded to the nearest representable double by
`roundDouble` (round to nearest, ties to even — the identity up to `2 ^ 53`),
so the counter collapse at `2 ^ 53` is faithfully reproduced.
-/

namespace Deepstream

/-! ## JavaScript string helpers -/

/-- Lexicographic `≤` on character lists, by code point.  Models the
JavaScript relational operators on strings (`ar >= br` in `compareVersions`),
which compare code-unit-wise. -/
def lexLe : List Char → List Char → Bool
  | [], _ => true
  | _ :: _, [] => false
  | a :: as, b :: bs => if a = b then lexLe as bs else decide (a < b)

/-- Decimal digits of a natural number, most significant first.  Models the
JavaScript number-to-string conversion `${n}` for non-negative integers. -/
def natToChars (n : Nat) : List Char :=
  if h : n < 10 then [Char.ofNat (48 + n)]
  else natToChars (n / 10) ++ [Char.ofNat (48 + n % 10)]
  decreasing_by
    exact Nat.div_lt_self (by omega) (by omega)

/-- String form of `natToChars`. -/
def natToStr (n : Nat) : String := ⟨natToChars n⟩

/-- JavaScript `${i}` for integers. -/
def intToStr (i : Int) : String :=
  if i < 0 then "-" ++ natToStr i.natAbs else natToStr i.natAbs

/-- Numeric value of a list of decimal digit characters. -/
def digitsVal (cs : List Char) : Nat :=
  cs.foldl (fun acc c => 10 * acc + (c.toNat - 48)) 0

/-- The maximal run of leading decimal digits, `none` when there is
none. -/
def parseNatPrefix (cs : List Char) : Option Nat :=
  let ds := cs.takeWhile Char.isDigit
  if ds.isEmpty then none else some (digitsVal ds)

/-- The unit in the last place of the IEEE-754 binary64 double closest to
the natural number `n`: `1` up to `2 ^ 53` (that range is exactly
representable), doubling with every binade above. -/
def ulp (n : Nat) : Nat :=
  if h : n < 2 ^ 53 then 1 else 2 * ulp (n / 2)
decreasing_by
  have h1 : 0 < n := lt_of_lt_of_le (pow_pos (by norm_num) 53) (Nat.le_of_not_lt h)
  exact Nat.div_lt_self h1 (by omega)

/-- The value of the IEEE-754 binary64 double nearest to the natural number
`n` (round to nearest, ties to even): the identity up to `2 ^ 53`, a
multiple of `ulp n` above.  JavaScript numbers are binary64 doubles, so
this is the value `parseInt` returns for a digit run denoting `n`, and
rounding the exact sum like this is also what `+ 1` does to an integral
double.  (Overflow to `Infinity` starts at `2 ^ 1024`, far beyond every
value considered below.) -/
def roundDouble (n : Nat) : Nat :=
  if 2 * (n % ulp n) < ulp n then n / ulp n * ulp n
  else if ulp n < 2 * (n % ulp n) then (n / ulp n + 1) * ulp n
  else if n / ulp n % 2 = 0 then n / ulp n * ulp n else (n / ulp n + 1) * ulp n

/-- IEEE-754 binary64 addition of `1` to an integral double `d`: the exact
sum rounded back to a double.  Rounding is symmetric under negation, so a
negative `d` rounds the magnitude of the sum. -/
def doubleAdd1 (d : Int) : Int :=
  if 0 ≤ d then (roundDouble (d.toNat + 1) : Int)
  else -(roundDouble (d.natAbs - 1) : Int)

/-- Models JavaScript `parseInt(s, 10)`: skip leading whitespace, consume an
optional sign and then the maximal run of leading decimal digits; `none`
models `NaN` (no digits found).  `parseInt` returns a binary64 double, so
the mathematical integer the digits denote is rounded by `roundDouble`:
`parseInt('9007199254740993')` is `9007199254740992`. -/
def parseIntJS (s : String) : Option Int :=
  match s.data.dropWhile Char.isWhitespace with
  | [] => none
  | c :: rest =>
    if c = '-' then (parseNatPrefix rest).map (fun n => -(roundDouble n : Int))
    else if c = '+' then (parseNatPrefix rest).map (fun n => (roundDouble n : Int))
    else (parseNatPrefix (c :: rest)).map (fun n => (roundDouble n : Int))

/-- Models `utils.splitRev`: split a version token at the first `-`.
When no `-` is present the JavaScript slices `s.slice(0, -1)` and
`s.slice(0)` produce the string without its last character and the whole
string. -/
def splitRev (s : String) : String × String :=
  if ('-' : Char) ∈ s.data then
    (⟨s.data.takeWhile (· ≠ '-')⟩, ⟨(s.data.dropWhile (· ≠ '-')).tail⟩)
  else
    (⟨s.data.dropLast⟩, ⟨s.data⟩)

/-- Models `s.split('-')[0]` as used by `_dispatchUpdate`. -/
def firstField (s : String) : String := ⟨s.data.takeWhile (· ≠ '-')⟩

/-- A canonical version token `"<counter>-<nonce>"` (§3 of the spec):
the counter printed in decimal, then `-`, then the nonce.  This is exactly
the shape `_dispatchUpdate` produces with `` `${start + 1}-${xuid()}` ``. -/
def mkVer (c : Nat) (nonce : String) : String := natToStr c ++ "-" ++ nonce

/-- JavaScript truthiness of an optional string (`null`, `undefined` and
`""` are falsy). -/
def optStrTruthy : Option String → Bool
  | none => false
  | some s => s ≠ ""

/-- Models `utils.compareVersions(a, b)`:
`!a → false`, `!b → true`, otherwise
`parseInt(av, 10) > parseInt(bv, 10) || (av === bv && ar >= br)`
on the `splitRev` components.  `NaN` comparisons are false. -/
def compareVersions (a b : Option String) : Bool :=
  if ¬ optStrTruthy a then false
  else if ¬ optStrTruthy b then true
  else
    match a, b with
    | some sa, some sb =>
      let (av, ar) := splitRev sa
      let (bv, br) := splitRev sb
      (match parseIntJS av, parseIntJS bv with
       | some x, some y => decide (x > y)
       | _, _ => false)
      || (av = bv && lexLe br.data ar.data)
    | _, _ => false

/-- The comparison order of spec section 3, written from the spec's words: version `(cw, nw)`
is less than or equal to `(cv, nv)` iff the counter is numerically smaller,
or the counters are equal and the nonce is lexicographically smaller or
equal.  ("Numerically higher counter wins; on equal counter the
lexicographically greater nonce wins.") -/
def specVersionLe (cw : Nat) (nw : String) (cv : Nat) (nv : String) : Bool :=
  decide (cw < cv) || (decide (cw = cv) && lexLe nw.data nv.data)

/-! ## JSON values

JavaScript values as the record layer sees them: JSON values plus
`undefined`.  Objects are insertion-ordered key/value lists (the key order
`Object.keys` exposes for the non-numeric keys the record layer uses). -/

inductive JSVal where
  | undef
  | null
  | bool (b : Bool)
  | num (n : Int)
  | str (s : String)
  | arr (elems : List JSVal)
  | obj (fields : List (String × JSVal))

namespace JSVal

def isNullV : JSVal → Bool
  | .null => true
  | _ => false

def isUndefV : JSVal → Bool
  | .undef => true
  | _ => false

def isArrV : JSVal → Bool
  | .arr _ => true
  | _ => false

/-- A non-array, non-null object (`typeof x === 'object'` and
`!Array.isArray(x)` and `x !== null`). -/
def isObjV : JSVal → Bool
  | .obj _ => true
  | _ => false

/-- JavaScript truthiness. -/
def truthy : JSVal → Bool
  | .undef | .null => false
  | .bool b => b
  | .num n => n ≠ 0
  | .str s => s ≠ ""
  | .arr _ | .obj _ => true

/-- JavaScript `===` restricted to the cases the embedding needs: primitives
compare by value; two composite values built independently are never
reference-identical, so the composite cases are `false` (reference identity
of composites is tracked separately by the structural-sharing flags). -/
def jsPrimEq : JSVal → JSVal → Bool
  | .undef, .undef => true
  | .null, .null => true
  | .bool a, .bool b => a = b
  | .num a, .num b => a = b
  | .str a, .str b => a = b
  | _, _ => false

def objFields : JSVal → List (String × JSVal)
  | .obj fs => fs
  | _ => []

end JSVal

open JSVal

/-- First binding of key `k` (JavaScript property lookup on an object). -/
def lookupField : List (String × JSVal) → String → JSVal
  | [], _ => .undef
  | (k', v) :: rest, k => if k' = k then v else lookupField rest k

/-- A canonical array-index string (`"0"`, `"17"`, …): JavaScript array
indexing by string key uses exactly these. -/
def strToIndexQ (s : String) : Option Nat :=
  if s ≠ "" ∧ s.data.all Char.isDigit ∧ (s = "0" ∨ s.data.head? ≠ some '0')
  then some (digitsVal s.data) else none

/-- JavaScript property read `v[k]` for the values the record layer walks;
missing properties are `undefined`. -/
def getProp : JSVal → String → JSVal
  | .obj fs, k => lookupField fs k
  | .arr l, k =>
    match strToIndexQ k with
    | some i => l.getD i .undef
    | none => .undef
  | _, _ => (.undef)

/-- Models `Object.keys`: field names of an object, index strings of an array. -/
def jsKeys : JSVal → List String
  | .obj fs => fs.map Prod.fst
  | .arr l => (List.range l.length).map natToStr
  | _ => []

/-! Size lemmas used for the termination of `patchR`. -/

theorem one_le_sizeOf_jsval (v : JSVal) : 1 ≤ sizeOf v := by
  cases v <;> simp_arith

theorem one_le_sizeOf_list {α : Type} [SizeOf α] (l : List α) : 1 ≤ sizeOf l := by
  cases l <;> simp_arith

theorem sizeOf_lookupField_le (fs : List (String × JSVal)) (k : String) :
    sizeOf (lookupField fs k) ≤ sizeOf fs := by
  induction fs with
  | nil => simp [lookupField]
  | cons hd tl ih =>
    obtain ⟨k', v⟩ := hd
    simp only [lookupField]
    split
    · simp_arith
    · refine le_trans ih ?_
      simp_arith

theorem sizeOf_getD_le (l : List JSVal) (i : Nat) :
    sizeOf (l.getD i .undef) ≤ sizeOf l := by
  rcases Nat.lt_or_ge i l.length with h | h
  · rw [List.getD_eq_getElem l .undef h]
    exact le_of_lt (List.sizeOf_lt_of_mem (List.getElem_mem h))
  · rw [List.getD_eq_default l .undef h]
    exact one_le_sizeOf_list l

theorem sizeOf_getProp_le (d : JSVal) (k : String) :
    sizeOf (getProp d k) ≤ sizeOf d := by
  cases d with
  | obj fs =>
    have := sizeOf_lookupField_le fs k
    simp only [getProp, JSVal.obj.sizeOf_spec]
    omega
  | arr l =>
    have h1 := one_le_sizeOf_list l
    simp only [getProp]
    split
    · rename_i i _
      have := sizeOf_getD_le l i
      simp only [JSVal.arr.sizeOf_spec]
      omega
    · simp only [JSVal.arr.sizeOf_spec, JSVal.undef.sizeOf_spec]
      omega
  | undef => simp [getProp]
  | null => simp [getProp]
  | bool b => simp_arith [getProp]
  | num n => simp_arith [getProp]
  | str s => simp_arith [getProp]

theorem sizeOf_filter_le {α : Type} [SizeOf α] (p : α → Bool) (l : List α) :
    sizeOf (l.filter p) ≤ sizeOf l := by
  induction l with
  | nil => simp
  | cons hd tl ih =>
    simp only [List.filter_cons]
    split
    · simp_arith [ih]
    · refine le_trans ih ?_
      simp_arith

theorem sizeOf_headD_le (l : List JSVal) :
    sizeOf (l.head?.getD .undef) ≤ sizeOf l := by
  cases l with
  | nil => simp
  | cons a as => simp_arith

theorem sizeOf_tail_le (l : List JSVal) : sizeOf l.tail ≤ sizeOf l := by
  cases l with
  | nil => simp
  | cons a as => simp_arith

end Deepstream

namespace Deepstream

open JSVal

/-! ## `json-path.js` `patch`

`patchR old new` returns the merged value together with the
reference-identity flag "result `===` old" that the JavaScript caller
observes.  `patchArr` is the `for` loop over the indices of the new array
(`old[i]` is `undefined` past the end of the old array); `patchObj` is the
loop over the keys of the new object whose values are not `undefined`. -/

mutual

/-- Models `patch(oldValue, newValue)` of `src/record/json-path.js`:
if either operand is `null` return the new value; two arrays are merged
elementwise and the old array is returned when the lengths match and every
element patched to the same reference; an object merged into an object (or
array) patches each non-`undefined` key of the new value against the old
property, returning the old value iff the key sequence matches
`Object.keys(old)` exactly and every patched value is reference-identical;
otherwise scalars replace (identity-preserving on `===`). -/
def patchR (oldValue newValue : JSVal) : JSVal × Bool :=
  if isNullV oldValue || isNullV newValue then
    (newValue, jsPrimEq newValue oldValue)
  else
    match oldValue, newValue with
    | .arr oldL, .arr newL =>
      let results := patchArr oldL newL
      if newL.length = oldL.length ∧ results.all (fun r => r.2) then
        (.arr oldL, true)
      else
        (.arr (results.map (fun r => r.1)), false)
    | o, .obj nfs =>
      if isObjV o || isArrV o then
        let entries := nfs.filter (fun kv => !(isUndefV kv.2))
        let results := patchObj o entries
        if results.map (fun r => r.1) = jsKeys o ∧ results.all (fun r => r.2.2) then
          (o, true)
        else
          (.obj (results.map (fun r => (r.1, r.2.1))), false)
      else
        (if jsPrimEq (.obj nfs) o then o else .obj nfs, jsPrimEq (.obj nfs) o)
    | o, n =>
      (if jsPrimEq n o then o else n, jsPrimEq n o)
termination_by sizeOf oldValue + sizeOf newValue
decreasing_by
  · simp_arith
  · have h := sizeOf_filter_le (fun kv : String × JSVal => !(kv.2.isUndefV)) nfs
    simp only [JSVal.obj.sizeOf_spec]
    omega

/-- The element loop of `patch` over the indices of the new array. -/
def patchArr (oldL newL : List JSVal) : List (JSVal × Bool) :=
  match newL with
  | [] => []
  | n :: ns => patchR (oldL.headD .undef) n :: patchArr oldL.tail ns
termination_by sizeOf oldL + sizeOf newL
decreasing_by
  · have h := sizeOf_headD_le oldL
    simp only [List.headD_eq_head?_getD, List.cons.sizeOf_spec]
    omega
  · have h := sizeOf_tail_le oldL
    simp only [List.cons.sizeOf_spec]
    omega

/-- The key loop of `patch` over the non-`undefined` keys of the new
object. -/
def patchObj (o : JSVal) (entries : List (String × JSVal)) :
    List (String × (JSVal × Bool)) :=
  match entries with
  | [] => []
  | (k, v) :: rest => (k, patchR (getProp o k) v) :: patchObj o rest
termination_by sizeOf o + sizeOf entries
decreasing_by
  · have h := sizeOf_getProp_le o k
    simp only [List.cons.sizeOf_spec, Prod.mk.sizeOf_spec]
    omega
  · simp only [List.cons.sizeOf_spec, Prod.mk.sizeOf_spec]
    omega

end

end Deepstream

namespace Deepstream

open JSVal

/-! ## `json-path.js` `tokenize`, `get`, `set` -/

/-- A path-separator character per the tokenizing regular expression
`/([^.[\]\s]+)/g`: `.`, `[`, `]` or whitespace. -/
def isSepChar (c : Char) : Bool := c = '.' || c = '[' || c = ']' || c.isWhitespace

/-- Maximal runs of non-separator characters (the matches of the
tokenizing regular expression). -/
def pathRunsAux : List Char → List Char → List String
  | [], cur => if cur.isEmpty then [] else [⟨cur.reverse⟩]
  | c :: cs, cur =>
    if isSepChar c then
      if cur.isEmpty then pathRunsAux cs [] else ⟨cur.reverse⟩ :: pathRunsAux cs []
    else pathRunsAux cs (c :: cur)

def pathRuns (s : String) : List String := pathRunsAux s.data []

/-- Models `tokenize(path)`: a falsy path gives no tokens; the literal
string `"undefined"` gives no tokens (the `String(path) !== 'undefined'`
guard); otherwise the regular-expression matches, and a path with no
matches (all separators) throws `invalid path`. -/
def tokenize : Option String → Except String (List String)
  | none => .ok []
  | some s =>
    if s = "" then .ok []
    else if s = "undefined" then .ok []
    else
      let ts := pathRuns s
      if ts.isEmpty then .error ("invalid path " ++ s) else .ok ts

/-- The token walk of `get`: `undefined` cursor returns `undefined`;
a cursor that is not an object and not an array (`typeof data !== 'object'
|| data === null`) throws; otherwise step into the property. -/
def getWalk : JSVal → List String → Except String JSVal
  | d, [] => .ok d
  | d, t :: ts =>
    if isUndefV d then .ok .undef
    else if isObjV d || isArrV d then getWalk (getProp d t) ts
    else .error "invalid data or path"

/-- Models `get(data, path)`: tokenize, replace a falsy root by the shared
frozen `EMPTY` object (`data = data || EMPTY`), then walk. -/
def getR (dat : JSVal) (path : Option String) : Except String JSVal := do
  let tokens ← tokenize path
  getWalk (if truthy dat then dat else .obj []) tokens

/-- Key update on an object's field list: JavaScript assignment keeps the
position of an existing key and appends a new key. -/
def setField : List (String × JSVal) → String → JSVal → List (String × JSVal)
  | [], k, v => [(k, v)]
  | (k', v') :: rest, k, v =>
    if k' = k then (k, v) :: rest else (k', v') :: setField rest k v

/-- Array element assignment `l[i] = v`, padding holes with `undefined`
when writing past the end. -/
def listSetPad (l : List JSVal) (i : Nat) (v : JSVal) : List JSVal :=
  if i < l.length then l.set i v
  else l ++ List.replicate (i - l.length) .undef ++ [v]

/-- JavaScript property write `node[k] = v` as far as JSON can observe it
(a string-keyed property added to an array or a primitive is invisible to
`JSON.stringify` and to the path walks of this module). -/
def setProp (node : JSVal) (k : String) (v : JSVal) : JSVal :=
  match node with
  | .obj fs => .obj (setField fs k v)
  | .arr l =>
    match strToIndexQ k with
    | some i => .arr (listSetPad l i v)
    | none => .arr l
  | other => other

/-- Models `tokens[i+1] && !isNaN(tokens[i+1])` for path tokens: the only
numeric tokens a path produces are digit runs. -/
def jsIsNumericStr (s : String) : Bool := !s.data.isEmpty && s.data.all Char.isDigit

/-- The path-building loop of `set`: walk the (shallow-copied) tree along
the tokens, write `newValue` into the last slot, shallow-copy existing
intermediates, and create a fresh `[]`/`{}` for a missing intermediate
according to whether the next token is numeric. -/
def assignPath : JSVal → List String → JSVal → JSVal
  | _, [], v => v
  | node, [t], v => setProp node t v
  | node, t :: t2 :: rest, v =>
    let child := getProp node t
    let child' :=
      if ¬ isUndefV child then child
      else if jsIsNumericStr t2 then .arr [] else .obj []
    setProp node t (assignPath child' (t2 :: rest) v)

/-- Models `set(data, path, value)`, returning the new tree together with
the "result is reference-identical to `data`" flag the callers test with
`===`.  No tokens: plain `patch`.  Otherwise read the old subtree with
`get`, patch it, return `data` itself if the patched subtree is
reference-identical, else rebuild along the path starting from a shallow
copy of `data` (or `{}` when `data` is falsy). -/
def setR (dat : JSVal) (path : Option String) (value : JSVal) :
    Except String (JSVal × Bool) := do
  let tokens ← tokenize path
  if tokens.isEmpty then
    pure (patchR dat value)
  else do
    let oldValue ← getWalk (if truthy dat then dat else .obj []) tokens
    let (newValue, same) := patchR oldValue value
    if same then
      pure (dat, true)
    else
      pure (assignPath (if truthy dat then dat else .obj []) tokens newValue, false)

/-! ## The record state machine (`record.js`) -/

/-- An outbound `UPDATE(name, version, data, prevVersion)` message (the
record name is fixed, so it is omitted). -/
structure SentUpd where
  ver : String
  payload : JSVal
  prev : Option String

/-- The per-record client state. -/
structure Rec where
  version : Option String
  rdata : JSVal
  isReady : Bool
  isDestroyed : Bool
  isSubscribed : Bool
  usages : Int
  patchQueue : Option (List (String × JSVal))

/-- A freshly constructed record (the constructor also sends
`READ(name)`). -/
def initRec : Rec :=
  { version := none, rdata := .undef, isReady := false, isDestroyed := false,
    isSubscribed := true, usages := 0, patchQueue := some [] }

/-- Models `_dispatchUpdate`: `start` is the integer prefix of the current
version (`0` when the version is unset/falsy) as the double `parseInt`
returns, the new version is `` `${start + 1}-${xuid()}` `` with a fresh
nonce — `start + 1` being binary64 addition (`doubleAdd1`) — the `UPDATE`
carries the data and the previous version, and the new version is adopted
locally.  (An integral double up to `2 ^ 53` prints as its exact decimal,
which is the only range the sent versions of the theorems below reach.) -/
def dispatchUpdate (r : Rec) (nonce : String) : Rec × SentUpd :=
  let start : Option Int :=
    match r.version with
    | none => some 0
    | some s => if s = "" then some 0 else parseIntJS (firstField s)
  let newVer :=
    match start with
    | some k => intToStr (doubleAdd1 k) ++ "-" ++ nonce
    | none => "NaN-" ++ nonce
  ({ r with version := some newVer },
   { ver := newVer, payload := r.rdata, prev := r.version })

/-- The patch-queue update of `set`:
`if (path && this._patchQueue) push({path, data}); else queue = undefined`.
-/
def pushQueue (path : Option String) (pq : Option (List (String × JSVal)))
    (d : JSVal) : Option (List (String × JSVal)) :=
  match path, pq with
  | some p, some q => some (q ++ [(p, d)])
  | _, _ => none

/-- Models `Record.prototype.set` (both call shapes, `path = none` for the
single-argument root write).  Errors model thrown exceptions: the
destroyed-record invariant, the argument validations, and anything
`jsonPath.set` throws. -/
def setOpE (r : Rec) (path : Option String) (d : JSVal) (nonce : String) :
    Except String (Rec × List SentUpd) :=
  if r.isDestroyed then
    .error "set cannot use destroyed record"
  else if path = none && !(isObjV d || isArrV d || isNullV d) then
    .error "invalid argument data"
  else if path = some "" then
    .error "invalid argument path"
  else
    let q' := pushQueue path r.patchQueue d
    match setR r.rdata path d with
    | .error e => .error e
    | .ok (newValue, same) =>
      if same then .ok ({ r with patchQueue := q' }, [])
      else
        let r1 := { r with patchQueue := q', rdata := newValue }
        if r.isReady then
          .ok ((dispatchUpdate r1 nonce).1, [(dispatchUpdate r1 nonce).2])
        else .ok (r1, [])

/-- Total form of `setOpE` for operation sequences: a thrown exception
aborts the call in the caller; the argument validations precede the
patch-queue push, so only a `jsonPath.set` throw leaves the push behind. -/
def setOp (r : Rec) (path : Option String) (d : JSVal) (nonce : String) :
    Rec × List SentUpd :=
  match setOpE r path d nonce with
  | .ok res => res
  | .error _ =>
    if r.isDestroyed || (path = none && !(isObjV d || isArrV d || isNullV d))
        || path = some "" then
      (r, [])
    else
      ({ r with patchQueue := pushQueue path r.patchQueue d }, [])

/-- Models `_applyUpdate(message)`: drop the message if
`compareVersions(local, incoming)` holds, else adopt the incoming version
and merge the parsed JSON via `jsonPath.set(data, undefined, parsed)`
(which is `patch`). -/
def applyUpdateOp (r : Rec) (ver : String) (parsed : JSVal) : Rec :=
  if compareVersions r.version (some ver) then r
  else { r with version := some ver, rdata := (patchR r.rdata parsed).1 }

/-- The replay loop of `_onRead`: fold the queued patches over the parsed
snapshot, tracking whether every step returned its input
reference-identically (so that the final value is `===` the snapshot). -/
def replayQueue (snap : JSVal) (q : List (String × JSVal)) :
    Except String (JSVal × Bool) :=
  q.foldlM
    (fun acc e => do
      let (v, s) ← setR acc.1 (some e.1) e.2
      pure (v, acc.2 && s))
    (snap, true)

/-- Models `_onRead(message)`: parse the snapshot; when a patch queue is
present (even empty) replay it on top of the snapshot and drop the queue;
otherwise keep the local data if truthy, else fall back to the snapshot.
Mark ready, adopt the server version, and dispatch a follow-up `UPDATE`
iff the new value is not reference-identical to the freshly parsed
snapshot.  A throw from a queued patch aborts the handler before any state
change. -/
def onReadOp (r : Rec) (ver : String) (parsed : JSVal) (nonce : String) :
    Rec × List SentUpd :=
  match r.patchQueue with
  | some q =>
    match replayQueue parsed q with
    | .error _ => (r, [])
    | .ok (newValue, sameAll) =>
      let r1 := { r with
        patchQueue := none
        isReady := true
        version := some ver
        rdata := newValue }
      if sameAll then (r1, [])
      else ((dispatchUpdate r1 nonce).1, [(dispatchUpdate r1 nonce).2])
  | none =>
    let keep := truthy r.rdata
    let newValue := if keep then r.rdata else parsed
    let sameRef := if keep then jsPrimEq r.rdata parsed else true
    let r1 := { r with isReady := true, version := some ver, rdata := newValue }
    if sameRef then (r1, [])
    else ((dispatchUpdate r1 nonce).1, [(dispatchUpdate r1 nonce).2])

/-- Models the `UPDATE` branch of `_$onMessage`: destroyed records receive
nothing; a record that is not ready takes the message as the initial
snapshot (`_onRead`), a ready record reconciles it (`_applyUpdate`). -/
def msgOp (r : Rec) (ver : String) (parsed : JSVal) (nonce : String) :
    Rec × List SentUpd :=
  if r.isDestroyed then (r, [])
  else if ¬ r.isReady then onReadOp r ver parsed nonce
  else (applyUpdateOp r ver parsed, [])

/-- Models `destroy()`: send `UNSUBSCRIBE` when still subscribed (the
returned Bool), mark destroyed and unsubscribed, clear the data and the
patch queue. -/
def destroyOp (r : Rec) : Rec × Bool :=
  ({ r with isDestroyed := true, isSubscribed := false, rdata := .undef,
            patchQueue := some [] },
   r.isSubscribed)

/-- The record operations a version can change under: local writes,
inbound `UPDATE`s (with a §3-canonical version token `mkVer c vn`), and
destruction. -/
inductive ROp where
  | rset (path : Option String) (d : JSVal) (nonce : String)
  | rupdate (c : Nat) (vn : String) (parsed : JSVal) (dnonce : String)
  | rdestroy

def stepR (r : Rec) : ROp → Rec × List SentUpd
  | .rset p d n => setOp r p d n
  | .rupdate c vn parsed dn => msgOp r (mkVer c vn) parsed dn
  | .rdestroy => ((destroyOp r).1, [])

/-- Run a sequence of record operations, collecting the outbound
`UPDATE`s in order. -/
def runR (r : Rec) : List ROp → Rec × List SentUpd
  | [] => (r, [])
  | op :: ops =>
    let (r1, out1) := stepR r op
    let (r2, outs) := runR r1 ops
    (r2, out1 ++ outs)

end Deepstream

namespace Deepstream

theorem isDigit_not_whitespace {c : Char} (h : c.isDigit = true) :
    c.isWhitespace = false := by
  simp [Char.isDigit] at h
  simp only [Char.isWhitespace, Bool.or_eq_false_iff, decide_eq_false_iff_not]
  refine ⟨⟨⟨?_, ?_⟩, ?_⟩, ?_⟩ <;>
    (intro hc; subst hc; simp [Char.val] at h)

theorem isDigit_ne_dash {c : Char} (h : c.isDigit = true) : c ≠ '-' := by
  intro hc; subst hc; simp [Char.isDigit] at h

theorem isDigit_ne_plus {c : Char} (h : c.isDigit = true) : c ≠ '+' := by
  intro hc; subst hc; simp [Char.isDigit] at h

theorem natToChars_digits (n : Nat) : ∀ c ∈ natToChars n, c.isDigit = true := by
  induction n using Nat.strong_induction_on with
  | _ n ih =>
    rw [natToChars]
    split
    · rename_i h
      intro c hc
      simp at hc
      subst hc
      interval_cases n <;> decide
    · rename_i h
      intro c hc
      rw [List.mem_append] at hc
      rcases hc with hc | hc
      · exact ih (n / 10) (Nat.div_lt_self (by omega) (by omega)) c hc
      · simp at hc
        subst hc
        have h10 : n % 10 < 10 := Nat.mod_lt _ (by omega)
        set r := n % 10 with hr
        interval_cases r <;> decide

theorem natToChars_ne_nil (n : Nat) : natToChars n ≠ [] := by
  rw [natToChars]
  split <;> simp

theorem digitsVal_append (xs : List Char) (c : Char) :
    digitsVal (xs ++ [c]) = 10 * digitsVal xs + (c.toNat - 48) := by
  simp [digitsVal, List.foldl_append]

theorem digitsVal_natToChars (n : Nat) : digitsVal (natToChars n) = n := by
  induction n using Nat.strong_induction_on with
  | _ n ih =>
    rw [natToChars]
    split
    · rename_i h
      interval_cases n <;> decide
    · rename_i h
      rw [digitsVal_append, ih (n / 10) (Nat.div_lt_self (by omega) (by omega))]
      have h10 : n % 10 < 10 := Nat.mod_lt _ (by omega)
      have hc : (Char.ofNat (48 + n % 10)).toNat = 48 + n % 10 := by
        set r := n % 10 with hr
        interval_cases r <;> decide
      omega

end Deepstream

namespace Deepstream

theorem takeWhile_all {α : Type} (p : α → Bool) (xs : List α)
    (h : ∀ x ∈ xs, p x = true) : xs.takeWhile p = xs := by
  induction xs with
  | nil => simp
  | cons a as ih =>
    have ha := h a (by simp)
    have hrest := ih (fun x hx => h x (by simp [hx]))
    simp [List.takeWhile_cons, ha, hrest]

theorem takeWhile_append_all {α : Type} (p : α → Bool) (xs ys : List α)
    (h : ∀ x ∈ xs, p x = true) :
    (xs ++ ys).takeWhile p = xs ++ ys.takeWhile p := by
  induction xs with
  | nil => simp
  | cons a as ih =>
    have ha := h a (by simp)
    have hrest := ih (fun x hx => h x (by simp [hx]))
    simp [List.takeWhile_cons, ha, hrest]

theorem dropWhile_append_all {α : Type} (p : α → Bool) (xs ys : List α)
    (h : ∀ x ∈ xs, p x = true) :
    (xs ++ ys).dropWhile p = ys.dropWhile p := by
  induction xs with
  | nil => simp
  | cons a as ih =>
    have ha := h a (by simp)
    have hrest := ih (fun x hx => h x (by simp [hx]))
    simp [List.dropWhile_cons, ha, hrest]

theorem ulp_of_lt {n : Nat} (h : n < 2 ^ 53) : ulp n = 1 := by
  rw [ulp]
  exact dif_pos h

/-- Up to `2 ^ 53` every natural number is a binary64 double. -/
theorem roundDouble_exact {n : Nat} (h : n ≤ 2 ^ 53) : roundDouble n = n := by
  rcases Nat.lt_or_ge n (2 ^ 53) with hlt | hge
  · unfold roundDouble
    rw [ulp_of_lt hlt]
    rw [if_pos (by omega)]
    simp
  · have hn : n = 2 ^ 53 := le_antisymm h hge
    subst hn
    have hp : (2 : Nat) ^ 53 = 2 * 2 ^ 52 := by ring
    have hb : 0 < (2 : Nat) ^ 52 := pow_pos (by norm_num) 52
    have hu : ulp (2 ^ 53) = 2 := by
      rw [ulp, dif_neg (by omega)]
      rw [show (2 : Nat) ^ 53 / 2 = 2 ^ 52 by omega]
      rw [ulp_of_lt (by omega)]
    unfold roundDouble
    rw [hu]
    rw [show (2 : Nat) ^ 53 % 2 = 0 by omega]
    rw [show (2 : Nat) ^ 53 / 2 = 2 ^ 52 by omega]
    rw [if_pos (by norm_num)]
    omega

theorem ulp_two_pow_53_succ : ulp (2 ^ 53 + 1) = 2 := by
  have hp : (2 : Nat) ^ 53 = 2 * 2 ^ 52 := by ring
  have hb : 0 < (2 : Nat) ^ 52 := pow_pos (by norm_num) 52
  rw [ulp, dif_neg (by omega)]
  rw [show ((2 : Nat) ^ 53 + 1) / 2 = 2 ^ 52 by omega]
  rw [ulp_of_lt (by omega)]

/-- The double nearest to `2 ^ 53 + 1` is `2 ^ 53`: the tie between the
representable neighbours `2 ^ 53` and `2 ^ 53 + 2` breaks to the even
mantissa.  This is JavaScript's `9007199254740993` collapsing to
`9007199254740992`. -/
theorem roundDouble_two_pow_53_succ : roundDouble (2 ^ 53 + 1) = 2 ^ 53 := by
  have hp : (2 : Nat) ^ 53 = 2 * 2 ^ 52 := by ring
  have hq : (2 : Nat) ^ 52 = 2 * 2 ^ 51 := by ring
  unfold roundDouble
  rw [ulp_two_pow_53_succ]
  rw [show ((2 : Nat) ^ 53 + 1) % 2 = 1 by omega]
  rw [show ((2 : Nat) ^ 53 + 1) / 2 = 2 ^ 52 by omega]
  rw [if_neg (by norm_num), if_neg (by norm_num)]
  rw [if_pos (by omega : (2 : Nat) ^ 52 % 2 = 0)]
  omega

theorem doubleAdd1_ofNat (n : Nat) :
    doubleAdd1 (n : Int) = ((roundDouble (n + 1) : Nat) : Int) := by
  unfold doubleAdd1
  rw [if_pos (by omega)]
  norm_num

theorem intToStr_ofNat (n : Nat) : intToStr (n : Int) = natToStr n := by
  unfold intToStr
  rw [if_neg (by omega)]
  norm_num

theorem parseIntJS_natToStr (n : Nat) :
    parseIntJS (natToStr n) = some ((roundDouble n : Nat) : Int) := by
  have hd := natToChars_digits n
  have hdw : (natToChars n).dropWhile Char.isWhitespace = natToChars n := by
    cases hnc : natToChars n with
    | nil => simp
    | cons c cs =>
      rw [List.dropWhile_cons]
      have hcd : c.isDigit = true := hd c (by rw [hnc]; simp)
      rw [isDigit_not_whitespace hcd]
      simp
  unfold parseIntJS natToStr
  simp only [String.data]
  rw [hdw]
  cases hnc : natToChars n with
  | nil => exact absurd hnc (natToChars_ne_nil n)
  | cons c cs =>
    have hc : c.isDigit = true := hd c (by rw [hnc]; simp)
    simp only []
    rw [if_neg (isDigit_ne_dash hc), if_neg (isDigit_ne_plus hc)]
    unfold parseNatPrefix
    have hall : ∀ x ∈ c :: cs, x.isDigit = true := by
      rw [← hnc]; exact hd
    rw [takeWhile_all _ _ hall]
    have hval : digitsVal (c :: cs) = n := by rw [← hnc, digitsVal_natToChars]
    simp [hval]

/-- Below `2 ^ 53` `parseInt` is exact on decimal tokens. -/
theorem parseIntJS_natToStr_exact {n : Nat} (h : n ≤ 2 ^ 53) :
    parseIntJS (natToStr n) = some (n : Int) := by
  rw [parseIntJS_natToStr, roundDouble_exact h]

theorem natToStr_inj {a b : Nat} (h : natToStr a = natToStr b) : a = b := by
  have h2 := congrArg (fun s : String => digitsVal s.data) h
  simpa [natToStr, digitsVal_natToChars] using h2

theorem data_mkVer (c : Nat) (nonce : String) :
    (mkVer c nonce).data = natToChars c ++ '-' :: nonce.data := by
  simp [mkVer, natToStr]

theorem mkVer_ne_empty (c : Nat) (nonce : String) : mkVer c nonce ≠ "" := by
  intro h
  have := congrArg String.data h
  rw [data_mkVer] at this
  simp at this

theorem splitRev_mkVer (c : Nat) (nonce : String) :
    splitRev (mkVer c nonce) = (natToStr c, nonce) := by
  have hd := natToChars_digits c
  have hne : ∀ x ∈ natToChars c, (decide ¬(x = '-')) = true := by
    intro x hx
    simp [isDigit_ne_dash (hd x hx)]
  unfold splitRev
  rw [data_mkVer]
  rw [if_pos (by simp : ('-' : Char) ∈ natToChars c ++ '-' :: nonce.data)]
  have h1 : (natToChars c ++ '-' :: nonce.data).takeWhile (fun x => decide ¬(x = '-'))
      = natToChars c := by
    rw [takeWhile_append_all _ _ _ hne]
    simp [List.takeWhile_cons]
  have h2 : (natToChars c ++ '-' :: nonce.data).dropWhile (fun x => decide ¬(x = '-'))
      = '-' :: nonce.data := by
    rw [dropWhile_append_all _ _ _ hne]
    simp [List.dropWhile_cons]
  rw [show ((fun x => x ≠ '-') : Char → Bool) = (fun x => decide ¬(x = '-')) from rfl] at *
  rw [h1, h2]
  simp [natToStr]

theorem firstField_mkVer (c : Nat) (nonce : String) :
    firstField (mkVer c nonce) = natToStr c := by
  have hd := natToChars_digits c
  have hne : ∀ x ∈ natToChars c, (decide ¬(x = '-')) = true := by
    intro x hx
    simp [isDigit_ne_dash (hd x hx)]
  unfold firstField
  rw [data_mkVer]
  have h1 : (natToChars c ++ '-' :: nonce.data).takeWhile (fun x => decide ¬(x = '-'))
      = natToChars c := by
    rw [takeWhile_append_all _ _ _ hne]
    simp [List.takeWhile_cons]
  rw [show ((fun x => x ≠ '-') : Char → Bool) = (fun x => decide ¬(x = '-')) from rfl]
  rw [h1]
  rfl

/-- The version gate on two canonical §3 tokens, exactly as the code
computes it: the counters are compared as the binary64 doubles `parseInt`
returns, while the tie-break `av === bv` compares the counter strings
(numerically distinct counters never string-tie, by `natToStr_inj`). -/
theorem compareVersions_mkVer (cv cw : Nat) (nv nw : String) :
    compareVersions (some (mkVer cv nv)) (some (mkVer cw nw)) =
      (decide (roundDouble cw < roundDouble cv)
        || (decide (cv = cw) && lexLe nw.data nv.data)) := by
  unfold compareVersions
  rw [if_neg (by simp [optStrTruthy, mkVer_ne_empty])]
  rw [if_neg (by simp [optStrTruthy, mkVer_ne_empty])]
  simp only [splitRev_mkVer, parseIntJS_natToStr]
  congr 1
  · rw [decide_eq_decide]
    omega
  · congr 1
    rw [decide_eq_decide]
    constructor
    · exact fun h => natToStr_inj h
    · intro h; rw [h]

/-- Below `2 ^ 53` the doubles are exact and the gate coincides with the
§3 order. -/
theorem compareVersions_mkVer_exact {cv cw : Nat} (nv nw : String)
    (hv : cv ≤ 2 ^ 53) (hw : cw ≤ 2 ^ 53) :
    compareVersions (some (mkVer cv nv)) (some (mkVer cw nw)) =
      specVersionLe cw nw cv nv := by
  rw [compareVersions_mkVer, roundDouble_exact hv, roundDouble_exact hw]
  unfold specVersionLe
  congr 2
  rw [decide_eq_decide]
  exact ⟨fun h => h.symm, fun h => h.symm⟩

end Deepstream

namespace Deepstream

open JSVal

/-! ## JSON well-formedness

A value is a JSON value when it contains no `undefined` and every object
node has pairwise-distinct keys — exactly the values `JSON.parse` can
produce. -/

mutual

def isJson : JSVal → Bool
  | .undef => false
  | .null => true
  | .bool _ => true
  | .num _ => true
  | .str _ => true
  | .arr l => isJsonList l
  | .obj fs => decide ((fs.map Prod.fst).Nodup) && isJsonFields fs

def isJsonList : List JSVal → Bool
  | [] => true
  | x :: xs => isJson x && isJsonList xs

def isJsonFields : List (String × JSVal) → Bool
  | [] => true
  | kv :: rest => isJson kv.2 && isJsonFields rest

end

/-- Strong induction on the size of a `JSVal`. -/
theorem jsval_ind_sizeOf (P : JSVal → Prop)
    (h : ∀ v, (∀ w, sizeOf w < sizeOf v → P w) → P v) : ∀ v, P v := by
  intro v
  exact h v (fun w hw => jsval_ind_sizeOf P h w)
termination_by v => sizeOf v
decreasing_by exact hw

theorem isJsonList_mem {l : List JSVal} (h : isJsonList l = true) :
    ∀ x ∈ l, isJson x = true := by
  induction l with
  | nil => simp
  | cons a as ih =>
    rw [isJsonList] at h
    simp only [Bool.and_eq_true] at h
    intro x hx
    rcases List.mem_cons.mp hx with rfl | hx
    · exact h.1
    · exact ih h.2 x hx

theorem isJsonFields_mem {fs : List (String × JSVal)} (h : isJsonFields fs = true) :
    ∀ kv ∈ fs, isJson kv.2 = true := by
  induction fs with
  | nil => simp
  | cons a as ih =>
    rw [isJsonFields] at h
    simp only [Bool.and_eq_true] at h
    intro kv hkv
    rcases List.mem_cons.mp hkv with rfl | hkv
    · exact h.1
    · exact ih h.2 kv hkv

theorem isJson_not_undef {v : JSVal} (h : isJson v = true) : isUndefV v = false := by
  cases v <;> simp [isUndefV] <;> simp [isJson] at h

theorem lookupField_of_nodup {fs : List (String × JSVal)}
    (hnd : (fs.map Prod.fst).Nodup) {k : String} {v : JSVal} (hm : (k, v) ∈ fs) :
    lookupField fs k = v := by
  induction fs with
  | nil => simp at hm
  | cons a as ih =>
    obtain ⟨k', v'⟩ := a
    rw [List.map_cons, List.nodup_cons] at hnd
    rcases List.mem_cons.mp hm with heq | hm'
    · obtain ⟨rfl, rfl⟩ := Prod.mk.injEq .. ▸ heq
      simp [lookupField]
    · have hk : k' ≠ k := by
        intro hkk
        subst hkk
        exact hnd.1 (List.mem_map.mpr ⟨(k', v), hm', rfl⟩)
      simp only [lookupField, if_neg hk]
      exact ih hnd.2 hm'

theorem patchArr_map_self {l : List JSVal}
    (h : ∀ x ∈ l, patchR x x = (x, true)) :
    patchArr l l = l.map (fun x => (x, true)) := by
  induction l with
  | nil => simp [patchArr]
  | cons a as ih =>
    rw [patchArr]
    simp only [List.headD_cons, List.tail_cons]
    rw [h a (by simp), ih (fun x hx => h x (by simp [hx]))]
    simp

theorem patchObj_map_self (o : JSVal) (entries : List (String × JSVal))
    (h : ∀ kv ∈ entries, getProp o kv.1 = kv.2 ∧ patchR kv.2 kv.2 = (kv.2, true)) :
    patchObj o entries = entries.map (fun kv => (kv.1, (kv.2, true))) := by
  induction entries with
  | nil => simp [patchObj]
  | cons a as ih =>
    obtain ⟨k, v⟩ := a
    rw [patchObj]
    obtain ⟨h1, h2⟩ := h (k, v) (by simp)
    rw [h1, h2, ih (fun kv hkv => h kv (by simp [hkv]))]
    simp

/-- The call `patch(a, a)` returns `a` reference-identically for every JSON value. -/
theorem patch_self : ∀ (a : JSVal), isJson a = true → patchR a a = (a, true) := by
  refine jsval_ind_sizeOf _ ?_
  intro v ih hj
  cases v with
  | undef => simp [isJson] at hj
  | null =>
    rw [patchR]
    simp [isNullV, jsPrimEq]
    all_goals (intros; simp_all)
  | bool b =>
    rw [patchR]
    simp [isNullV, jsPrimEq]
    all_goals (intros; simp_all)
  | num n =>
    rw [patchR]
    simp [isNullV, jsPrimEq]
    all_goals (intros; simp_all)
  | str s =>
    rw [patchR]
    simp [isNullV, jsPrimEq]
    all_goals (intros; simp_all)
  | arr l =>
    have hmem : ∀ x ∈ l, patchR x x = (x, true) := by
      intro x hx
      have hsz : sizeOf x < sizeOf (JSVal.arr l) := by
        have := List.sizeOf_lt_of_mem hx
        simp only [JSVal.arr.sizeOf_spec]
        omega
      rw [isJson] at hj
      exact ih x hsz (isJsonList_mem hj x hx)
    rw [patchR]
    all_goals try (intros; simp_all; done)
    simp only [isNullV, Bool.or_self, Bool.false_or, if_neg (by simp : ¬false = true)]
    rw [patchArr_map_self hmem]
    simp

  | obj fs =>
    rw [isJson] at hj
    simp only [Bool.and_eq_true, decide_eq_true_eq] at hj
    obtain ⟨hnd, hflds⟩ := hj
    have hfilter : fs.filter (fun kv => !(kv.2.isUndefV)) = fs := by
      rw [List.filter_eq_self]
      intro kv hkv
      simp [isJson_not_undef (isJsonFields_mem hflds kv hkv)]
    have hmem : ∀ kv ∈ fs, getProp (JSVal.obj fs) kv.1 = kv.2 ∧
        patchR kv.2 kv.2 = (kv.2, true) := by
      intro kv hkv
      obtain ⟨k, v⟩ := kv
      constructor
      · exact lookupField_of_nodup hnd hkv
      · have hsz : sizeOf v < sizeOf (JSVal.obj fs) := by
          have h1 := List.sizeOf_lt_of_mem hkv
          simp only [JSVal.obj.sizeOf_spec, Prod.mk.sizeOf_spec] at *
          omega
        exact ih v hsz (isJsonFields_mem hflds (k, v) hkv)
    rw [patchR]
    all_goals try (intros; simp_all; done)
    simp only [isNullV, Bool.or_self, Bool.false_or, if_neg (by simp : ¬false = true)]
    rw [hfilter, patchObj_map_self _ _ hmem]
    simp [jsKeys]
    all_goals (intros; simp_all [isObjV])

end Deepstream

namespace Deepstream

open JSVal

/-- Claim C5 (confirmed). For every JSON value `a`, `patch(a, a)` returns `a` itself
(reference-identical); and for all JSON values `a` and `b` that are
structurally equal, `patch(a, b)` returns `a`.  (Structural equality of the
embedding is Lean equality on `JSVal`; JSON values contain no `undefined`.)
-/
theorem c5_patch_identity (a b : JSVal) (hj : isJson a = true) (hab : a = b) :
    patchR a b = (a, true) := by
  subst hab
  exact patch_self a hj

theorem c5_patch_identity_witness :
    isJson (JSVal.obj [("a", JSVal.num 1), ("b", JSVal.arr [JSVal.null])]) = true ∧
    patchR (JSVal.obj [("a", JSVal.num 1), ("b", JSVal.arr [JSVal.null])])
           (JSVal.obj [("a", JSVal.num 1), ("b", JSVal.arr [JSVal.null])])
      = (JSVal.obj [("a", JSVal.num 1), ("b", JSVal.arr [JSVal.null])], true) :=
  ⟨by simp [isJson, isJsonFields, isJsonList],
   c5_patch_identity _ _ (by simp [isJson, isJsonFields, isJsonList]) rfl⟩

end Deepstream

namespace Deepstream

open JSVal

/-- Claim C7 (confirmed). For every JSON object `d`, `set(d, root-path, v)` where `v`
equals `d` except for additional keys whose values are all `undefined`
returns `d` itself, reference-identical (a no-op).  `v` is rendered as an
object `gs` with pairwise-distinct keys whose non-`undefined` bindings are
exactly the bindings of `d`, in order. -/
theorem c7_root_set_undefined_keys_noop (fs gs : List (String × JSVal))
    (hj : isJson (JSVal.obj fs) = true)
    (hnd : (gs.map Prod.fst).Nodup)
    (hfil : gs.filter (fun kv => !(kv.2.isUndefV)) = fs) :
    setR (JSVal.obj fs) none (JSVal.obj gs) = .ok (JSVal.obj fs, true) := by
  rw [isJson] at hj
  simp only [Bool.and_eq_true, decide_eq_true_eq] at hj
  obtain ⟨hndf, hflds⟩ := hj
  have hmem : ∀ kv ∈ fs, getProp (JSVal.obj fs) kv.1 = kv.2 ∧
      patchR kv.2 kv.2 = (kv.2, true) := by
    intro kv hkv
    obtain ⟨k, v⟩ := kv
    exact ⟨lookupField_of_nodup hndf hkv,
           patch_self v (isJsonFields_mem hflds (k, v) hkv)⟩
  have hpatch : patchR (JSVal.obj fs) (JSVal.obj gs) = (JSVal.obj fs, true) := by
    rw [patchR]
    all_goals try (intros; simp_all; done)
    simp only [isNullV, Bool.or_self, Bool.false_or,
               if_neg (by simp : ¬false = true)]
    rw [hfil, patchObj_map_self _ _ hmem]
    simp [jsKeys]
    all_goals (intros; simp_all [isObjV])
  simp [setR, tokenize, hpatch, Bind.bind, Except.bind, pure, Except.pure]

theorem c7_root_set_undefined_keys_noop_witness :
    setR (JSVal.obj [("a", JSVal.num 1), ("b", JSVal.num 2)]) none
        (JSVal.obj [("a", JSVal.num 1), ("b", JSVal.num 2), ("c", JSVal.undef)])
      = .ok (JSVal.obj [("a", JSVal.num 1), ("b", JSVal.num 2)], true) :=
  c7_root_set_undefined_keys_noop _ _
    (by simp [isJson, isJsonFields]) (by decide) (by rfl)

end Deepstream

namespace Deepstream

open JSVal

/-- Claim C6, counterexample. The claim says a root `get` with no tokens
returns `data` itself unless `data` is nullish, and that the invalid-path
error occurs exactly at non-object non-null primitive cursors.  The code
replaces every *falsy* root (here the number `0`, which is not nullish) by
the shared frozen empty object, and it also throws at a `null` cursor. -/
theorem c6_counterexample :
    (getR (JSVal.num 0) none = .ok (JSVal.obj []) ∧ JSVal.obj [] ≠ JSVal.num 0) ∧
    getR (JSVal.obj [("a", JSVal.null)]) (some "a.b") = .error "invalid data or path" := by
  refine ⟨⟨rfl, ?_⟩, rfl⟩
  intro h
  cases h

/-- Claim C6, amended. The function `get(data, path)` first replaces a falsy root
(`undefined`, `null`, `false`, `0`, `""`) — not merely a nullish one — by
the shared frozen empty object, then walks token by token: with tokens
remaining an `undefined` cursor returns `undefined`, a cursor that is
neither an object nor an array (a `null` or a truthy primitive) fails with
the invalid-path error, and a cursor that is an object or array steps into
the property; with no tokens remaining the cursor itself is returned (so a
root get returns `data` when `data` is truthy and the shared empty object
otherwise). -/
theorem c6_get_walk_amended :
    (∀ d : JSVal, truthy d = true → getR d none = .ok d) ∧
    (∀ d : JSVal, truthy d = false → getR d none = .ok (JSVal.obj [])) ∧
    (∀ (d : JSVal) (p : Option String) (ts : List String), tokenize p = .ok ts →
      getR d p = getWalk (if truthy d then d else JSVal.obj []) ts) ∧
    (∀ (d : JSVal) (t : String) (ts : List String), isUndefV d = true →
      getWalk d (t :: ts) = .ok JSVal.undef) ∧
    (∀ (d : JSVal) (t : String) (ts : List String),
      isUndefV d = false → (isObjV d || isArrV d) = false →
      getWalk d (t :: ts) = .error "invalid data or path") ∧
    (∀ (d : JSVal) (t : String) (ts : List String), (isObjV d || isArrV d) = true →
      getWalk d (t :: ts) = getWalk (getProp d t) ts) ∧
    (∀ d : JSVal, getWalk d [] = .ok d) := by
  refine ⟨?_, ?_, ?_, ?_, ?_, ?_, ?_⟩
  · intro d h
    simp [getR, tokenize, getWalk, h, Bind.bind, Except.bind, pure, Except.pure]
  · intro d h
    simp [getR, tokenize, getWalk, h, Bind.bind, Except.bind, pure, Except.pure]
  · intro d p ts h
    simp [getR, h, Bind.bind, Except.bind]
  · intro d t ts h
    cases d <;> simp [isUndefV] at h ⊢ <;> simp [getWalk, isUndefV]
  · intro d t ts h1 h2
    cases d <;> simp [isUndefV] at h1 <;> simp [isObjV, isArrV] at h2 <;>
      simp [getWalk, isUndefV, isObjV, isArrV]
  · intro d t ts h
    cases d <;> simp [isObjV, isArrV] at h <;>
      simp [getWalk, isUndefV, isObjV, isArrV]
  · intro d
    simp [getWalk]

theorem c6_get_walk_amended_witness :
    getR (JSVal.num 5) none = .ok (JSVal.num 5) :=
  c6_get_walk_amended.1 (JSVal.num 5) (by decide)

end Deepstream

namespace Deepstream

open JSVal

/-- Claim C1, counterexample. JavaScript `parseInt` returns an IEEE-754
binary64 double, so the local counter `2 ^ 53 + 1` and the inbound counter
`2 ^ 53` parse to the same double `9007199254740992` while their strings
differ: the numeric branch and the string tie-break of `compareVersions`
both fail, and a ready record ADOPTS an inbound version that is strictly
smaller in the §3 order (per `specVersionLe` it should be dropped with the
record unchanged). -/
theorem msgOp_ready_version {r : Rec} {ver : String} {parsed : JSVal} {n : String}
    (hd : r.isDestroyed = false) (hr : r.isReady = true)
    (hcmp : compareVersions r.version (some ver) = false) :
    (msgOp r ver parsed n).1.version = some ver := by
  have h1 : msgOp r ver parsed n = (applyUpdateOp r ver parsed, []) := by
    unfold msgOp
    rw [hd, hr]
    simp
  rw [h1]
  unfold applyUpdateOp
  rw [hcmp]
  simp

theorem c1_counterexample :
    specVersionLe (2 ^ 53) "a" (2 ^ 53 + 1) "b" = true ∧
    (msgOp { version := some (mkVer (2 ^ 53 + 1) "b"), rdata := JSVal.null,
             isReady := true, isDestroyed := false, isSubscribed := true,
             usages := 1, patchQueue := none }
        (mkVer (2 ^ 53) "a") JSVal.null "n").1.version
      = some (mkVer (2 ^ 53) "a") ∧
    mkVer (2 ^ 53) "a" ≠ mkVer (2 ^ 53 + 1) "b" := by
  have hcmp : compareVersions (some (mkVer (2 ^ 53 + 1) "b"))
      (some (mkVer (2 ^ 53) "a")) = false := by
    rw [compareVersions_mkVer, roundDouble_two_pow_53_succ,
        roundDouble_exact (le_refl ((2 : Nat) ^ 53))]
    rw [decide_eq_false (by omega : ¬ ((2 : Nat) ^ 53 < 2 ^ 53)),
        decide_eq_false (by omega : ¬ ((2 : Nat) ^ 53 + 1 = 2 ^ 53))]
    simp
  refine ⟨?_, msgOp_ready_version rfl rfl hcmp, ?_⟩
  · unfold specVersionLe
    rw [decide_eq_true (by omega : (2 : Nat) ^ 53 < 2 ^ 53 + 1)]
    simp
  · intro h
    have h2 := congrArg firstField h
    rw [firstField_mkVer, firstField_mkVer] at h2
    have h3 := natToStr_inj h2
    omega

/-- Claim C1, amended. For counters in the exactly representable double
range (both at most `2 ^ 53` — `parseInt` returns binary64 doubles, so
larger counters collapse and the gate departs from the §3 order), the
inbound-`UPDATE` gate matches §3 exactly: a ready record with local
version `mkVer cv nv` drops an inbound `UPDATE` carrying `mkVer cw nw`
(record unchanged) whenever `specVersionLe cw nw cv nv`, and otherwise
adopts the version and merges the message's JSON into its data via
`patch`. -/
theorem c1_update_version_gate_amended (r : Rec) (cv cw : Nat) (nv nw : String)
    (snap : JSVal) (nonce : String)
    (hd : r.isDestroyed = false) (hr : r.isReady = true)
    (hv : r.version = some (mkVer cv nv))
    (hcv : cv ≤ 2 ^ 53) (hcw : cw ≤ 2 ^ 53) :
    (specVersionLe cw nw cv nv = true →
      msgOp r (mkVer cw nw) snap nonce = (r, [])) ∧
    (specVersionLe cw nw cv nv = false →
      msgOp r (mkVer cw nw) snap nonce =
        ({ r with version := some (mkVer cw nw),
                  rdata := (patchR r.rdata snap).1 }, [])) := by
  have hcmp : compareVersions r.version (some (mkVer cw nw)) =
      specVersionLe cw nw cv nv := by
    rw [hv, compareVersions_mkVer_exact nv nw hcv hcw]
  constructor
  · intro h
    simp [msgOp, hd, hr, applyUpdateOp, hcmp, h]
  · intro h
    simp [msgOp, hd, hr, applyUpdateOp, hcmp, h]

theorem c1_update_version_gate_amended_witness :
    specVersionLe 2 "a" 2 "b" = true ∧
    msgOp { version := some (mkVer 2 "b"), rdata := JSVal.obj [("x", JSVal.num 1)],
            isReady := true, isDestroyed := false, isSubscribed := true,
            usages := 1, patchQueue := none }
        (mkVer 2 "a") (JSVal.obj [("x", JSVal.num 9)]) "n"
      = ({ version := some (mkVer 2 "b"), rdata := JSVal.obj [("x", JSVal.num 1)],
           isReady := true, isDestroyed := false, isSubscribed := true,
           usages := 1, patchQueue := none }, []) :=
  ⟨by decide,
   (c1_update_version_gate_amended _ 2 2 "b" "a" (JSVal.obj [("x", JSVal.num 9)]) "n"
      rfl rfl rfl (by norm_num) (by norm_num)).1 (by decide)⟩

end Deepstream

namespace Deepstream

open JSVal

/-! ## Connection heartbeat (`connection.js`) -/

/-- The connection state the heartbeat logic reads and writes. -/
structure Conn where
  lastHeartBeat : Int
  heartbeatInterval : Int

/-- The tolerance factor of `_checkHeartBeat`:
`heartBeatTolerance = this._options.heartbeatInterval * 3`. -/
def heartbeatToleranceFactor : Int := 3

/-- What one heartbeat timer tick does. -/
inductive HBTick where
  | closedWithError (msg : String)
  | sentPing

/-- Models `_checkHeartBeat`: if the time since the last inbound heartbeat
exceeds the tolerance, clear the timer, close the endpoint and report a
`CONNECTION_ERROR`; otherwise submit `CONNECTION/PING`. -/
def checkHeartBeat (c : Conn) (now : Int) : HBTick :=
  let heartBeatTolerance := c.heartbeatInterval * heartbeatToleranceFactor
  if now - c.lastHeartBeat > heartBeatTolerance then
    .closedWithError ("heartbeat not received in the last " ++
      toString heartBeatTolerance ++ " milliseconds")
  else
    .sentPing

/-- Models the `PING` branch of `_handleConnectionResponse`: update
`_lastHeartBeat` and submit a `PONG` (the returned Bool). -/
def handlePing (c : Conn) (now : Int) : Conn × Bool :=
  ({ c with lastHeartBeat := now }, true)

/-- Models the `PONG` branch of `_handleConnectionResponse`: update
`_lastHeartBeat`. -/
def handlePong (c : Conn) (now : Int) : Conn :=
  { c with lastHeartBeat := now }

/-- Claim C9 (confirmed). On every heartbeat tick of an open connection: with the
tolerance `heartbeatInterval * k` for `k = 3 ≥ 2`, a tick whose elapsed
time since the last inbound `PING`/`PONG` exceeds the tolerance closes the
endpoint with a heartbeat-not-received error, and otherwise submits
`CONNECTION/PING`; receiving `PING` updates the last-heartbeat timestamp
and replies `PONG`; receiving `PONG` updates the last-heartbeat
timestamp. -/
theorem c9_heartbeat (c : Conn) (now : Int) :
    (2 ≤ heartbeatToleranceFactor) ∧
    (now - c.lastHeartBeat > c.heartbeatInterval * heartbeatToleranceFactor →
      checkHeartBeat c now = .closedWithError ("heartbeat not received in the last " ++
        toString (c.heartbeatInterval * heartbeatToleranceFactor) ++ " milliseconds")) ∧
    (¬ (now - c.lastHeartBeat > c.heartbeatInterval * heartbeatToleranceFactor) →
      checkHeartBeat c now = .sentPing) ∧
    (handlePing c now = ({ c with lastHeartBeat := now }, true)) ∧
    (handlePong c now = { c with lastHeartBeat := now }) := by
  refine ⟨by norm_num [heartbeatToleranceFactor], ?_, ?_, rfl, rfl⟩
  · intro h
    simp [checkHeartBeat, h]
  · intro h
    simp [checkHeartBeat, h]

theorem c9_heartbeat_witness :
    checkHeartBeat { lastHeartBeat := 0, heartbeatInterval := 30000 } 100000
      = .closedWithError ("heartbeat not received in the last " ++
          toString ((30000 : Int) * heartbeatToleranceFactor) ++ " milliseconds") :=
  (c9_heartbeat { lastHeartBeat := 0, heartbeatInterval := 30000 } 100000).2.1
    (by decide)

end Deepstream

namespace Deepstream

/-! ## Registry reference counting (`record-handler.js`) -/

/-- One registry cell (a single record name): the operations that touch the
`usages` count.  `acquire` is `getRecord` (create on miss, then
`usages += 1`), `release` is `Record.discard` (`usages -= 1`), `prune` is
one pruner visit (destroy and remove from the map when
`usages === 0 && isReady`), `ready` is the first server `UPDATE`. -/
inductive RegOp where
  | acquire
  | release
  | prune
  | ready

/-- The registry cell: `none` when no live record is registered under the
name, otherwise its `usages` count and `isReady` flag. -/
def regStep (s : Option (Int × Bool)) : RegOp → Option (Int × Bool)
  | .acquire =>
    match s with
    | none => some (1, false)
    | some (u, rdy) => some (u + 1, rdy)
  | .release =>
    match s with
    | none => none
    | some (u, rdy) => some (u - 1, rdy)
  | .prune =>
    match s with
    | some (0, true) => none
    | s' => s'
  | .ready => s.map (fun ur => (ur.1, true))

def regRun (ops : List RegOp) : Option (Int × Bool) :=
  ops.foldl regStep none

/-- Claim C8, counterexample. Nothing stops `discard` from being called more
often than `getRecord`: one acquisition followed by two releases drives
`usages` to `-1`, so `usages ≥ 0` does not hold for every operation
sequence. -/
theorem c8_counterexample :
    regRun [RegOp.acquire, RegOp.release, RegOp.release] = some (-1, false) ∧
    (-1 : Int) < 0 := by
  constructor
  · rfl
  · decide

/-- Prefix balance: every prefix of the operation sequence contains at
least as many acquisitions as releases. -/
def balGo : Nat → Nat → List RegOp → Bool
  | _, _, [] => true
  | a, r, op :: ops =>
    match op with
    | .acquire => balGo (a + 1) r ops
    | .release => decide (r + 1 ≤ a) && balGo a (r + 1) ops
    | .prune => balGo a r ops
    | .ready => balGo a r ops

def balanced (ops : List RegOp) : Bool := balGo 0 0 ops

/-- The inductive invariant: acquisitions minus releases equals the live
record's `usages` (zero when no record is registered). -/
def regInv (s : Option (Int × Bool)) (a r : Nat) : Prop :=
  match s with
  | some (u, _) => (a : Int) = (r : Int) + u ∧ 0 ≤ u
  | none => a = r

theorem regInv_run : ∀ (ops : List RegOp) (s : Option (Int × Bool)) (a r : Nat),
    regInv s a r → balGo a r ops = true →
    ∃ a' r' : Nat, regInv (ops.foldl regStep s) a' r' := by
  intro ops
  induction ops with
  | nil =>
    intro s a r hinv _
    exact ⟨a, r, hinv⟩
  | cons op ops ih =>
    intro s a r hinv hbal
    rw [List.foldl_cons]
    cases op with
    | acquire =>
      rw [balGo] at hbal
      refine ih (regStep s .acquire) (a + 1) r ?_ hbal
      cases s with
      | none => simp [regStep, regInv] at hinv ⊢; omega
      | some ur =>
        obtain ⟨u, rdy⟩ := ur
        simp [regStep, regInv] at hinv ⊢
        omega
    | release =>
      rw [balGo] at hbal
      simp only [Bool.and_eq_true, decide_eq_true_eq] at hbal
      obtain ⟨hle, hbal⟩ := hbal
      refine ih (regStep s .release) a (r + 1) ?_ hbal
      cases s with
      | none => simp [regInv] at hinv; omega
      | some ur =>
        obtain ⟨u, rdy⟩ := ur
        simp [regStep, regInv] at hinv ⊢
        omega
    | prune =>
      rw [balGo] at hbal
      refine ih (regStep s .prune) a r ?_ hbal
      cases s with
      | none => simpa [regStep, regInv] using hinv
      | some ur =>
        obtain ⟨u, rdy⟩ := ur
        by_cases hu : u = 0 ∧ rdy = true
        · obtain ⟨rfl, rfl⟩ := hu
          simp [regStep, regInv] at hinv ⊢
          omega
        · have : regStep (some (u, rdy)) .prune = some (u, rdy) := by
            simp only [regStep]
            split
            · rename_i heq
              exfalso
              apply hu
              cases heq
              exact ⟨rfl, rfl⟩
            · rfl
          rw [this]
          exact hinv
    | ready =>
      rw [balGo] at hbal
      refine ih (regStep s .ready) a r ?_ hbal
      cases s with
      | none => simpa [regStep, regInv] using hinv
      | some ur =>
        obtain ⟨u, rdy⟩ := ur
        simpa [regStep, regInv] using hinv

/-- Claim C8, amended. Provided every prefix of the operation sequence
contains at least as many `getRecord` acquisitions as `discard` releases
(handles are not over-released), the `usages` count of the registered
record is always non-negative. -/
theorem c8_usages_nonneg_amended (ops : List RegOp) (hbal : balanced ops = true) :
    ∀ (u : Int) (rdy : Bool), regRun ops = some (u, rdy) → 0 ≤ u := by
  intro u rdy hrun
  obtain ⟨a', r', hinv⟩ := regInv_run ops none 0 0 (by simp [regInv]) hbal
  rw [show ops.foldl regStep none = regRun ops from rfl, hrun] at hinv
  exact hinv.2

theorem c8_usages_nonneg_amended_witness :
    (0 : Int) ≤ 1 :=
  c8_usages_nonneg_amended [RegOp.acquire, RegOp.release, RegOp.acquire]
    (by decide) 1 false (by rfl)

end Deepstream

namespace Deepstream

open JSVal

/-! ## Destroyed-record guards and `whenReady` promises (`record.js`) -/

/-- Models `get(path)`: the destroyed-record invariant throws, then the
path utility reads from the local snapshot. -/
def getOp (r : Rec) (path : Option String) : Except String JSVal :=
  if r.isDestroyed then .error "get cannot use destroyed record"
  else getR r.rdata path

/-- Models `subscribe`'s destroyed-record invariant and path validation
(the listener registration itself lives outside the record state modelled
here). -/
def subscribeOp (r : Rec) (path : Option String) : Except String Rec :=
  if r.isDestroyed then .error "subscribe cannot use destroyed record"
  else if path = some "" then .error "invalid argument path"
  else .ok r

/-- Models `unsubscribe`'s destroyed-record invariant and path
validation. -/
def unsubscribeOp (r : Rec) (path : Option String) : Except String Rec :=
  if r.isDestroyed then .error "unsubscribe cannot use destroyed record"
  else if path = some "" then .error "invalid argument path"
  else .ok r

/-- Models `discard()` (no `silent` argument): the invariant throws on a
destroyed record, otherwise `usages -= 1`. -/
def discardOp (r : Rec) : Except String Rec :=
  if r.isDestroyed then .error "discard cannot use destroyed record"
  else .ok { r with usages := r.usages - 1 }

/-- The settlement state of one `whenReady` promise. -/
inductive PromiseSt where
  | pending
  | resolved
  | rejected (msg : String)

/-- A record together with the `whenReady` promise bookkeeping:
`promises` lists the created promises in creation order; `readyHs` and
`destroyHs` are the indices of promises holding a live `once('ready')`
resp. `once('destroy')` listener on the record's own emitter. -/
structure RecM where
  core : Rec
  readyHs : List Nat
  destroyHs : List Nat
  promises : List PromiseSt

def initRecM : RecM :=
  { core := initRec, readyHs := [], destroyHs := [], promises := [] }

/-- Models `whenReady()`: the destroyed-record invariant throws; an
already-ready record resolves immediately; otherwise the promise stays
pending with `once('ready', resolve)` and
`once('destroy', () => reject(new Error('destroyed')))` registered. -/
def whenReadyOp (m : RecM) : Except String (RecM × Nat) :=
  if m.core.isDestroyed then .error "whenReady cannot use destroyed record"
  else if m.core.isReady then
    .ok ({ m with promises := m.promises ++ [.resolved] }, m.promises.length)
  else
    .ok ({ m with
            promises := m.promises ++ [.pending]
            readyHs := m.readyHs ++ [m.promises.length]
            destroyHs := m.destroyHs ++ [m.promises.length] },
         m.promises.length)

/-- Fire `reject(new Error('destroyed'))` on the listed promise
indices. -/
def rejectAll (ps : List PromiseSt) (hs : List Nat) : List PromiseSt :=
  ps.mapIdx (fun i p =>
    if i ∈ hs then
      match p with
      | .pending => .rejected "destroyed"
      | p' => p'
    else p)

/-- Models `destroy()` in source order: send `UNSUBSCRIBE` if subscribed,
mark destroyed, clear data and queue; then `this._eventEmitter.off()` and
`this.off()` remove **every** listener — including the `whenReady`
handlers — and only after that `this.emit('destroy', this.name)` fires the
(by now empty) `destroy` listener list. -/
def destroyFullOp (m : RecM) : RecM :=
  let core' := (destroyOp m.core).1
  let m1 : RecM := { m with core := core', readyHs := [], destroyHs := [] }
  { m1 with promises := rejectAll m1.promises m1.destroyHs, destroyHs := [] }

/-- Claim C4, code-bug evaluation at the failing input: a
`whenReady()` on a not-yet-ready record leaves a pending promise with its
reject handler registered; `destroy()` then removes all listeners before
emitting `destroy`, so the promise stays `pending` forever instead of
rejecting with "destroyed".  The destroyed-record guards on the public
operations themselves do hold (second group of conjuncts). -/
theorem c4_pending_whenready_never_rejects :
    (whenReadyOp initRecM =
      .ok ({ core := initRec, readyHs := [0], destroyHs := [0],
             promises := [PromiseSt.pending] }, 0)) ∧
    ((destroyFullOp { core := initRec, readyHs := [0], destroyHs := [0],
                      promises := [PromiseSt.pending] }).promises
      = [PromiseSt.pending]) ∧
    (PromiseSt.pending ≠ PromiseSt.rejected "destroyed") ∧
    (let dm := destroyFullOp { core := initRec, readyHs := [0], destroyHs := [0],
                               promises := [PromiseSt.pending] }
     getOp dm.core none = .error "get cannot use destroyed record" ∧
     setOpE dm.core none (JSVal.obj []) "n" = .error "set cannot use destroyed record" ∧
     subscribeOp dm.core none = .error "subscribe cannot use destroyed record" ∧
     unsubscribeOp dm.core none = .error "unsubscribe cannot use destroyed record" ∧
     whenReadyOp dm = .error "whenReady cannot use destroyed record" ∧
     discardOp dm.core = .error "discard cannot use destroyed record") := by
  refine ⟨rfl, rfl, ?_, rfl, rfl, rfl, rfl, rfl, rfl⟩
  intro h
  cases h

end Deepstream

namespace Deepstream

open JSVal

/-- The method `_dispatchUpdate` always adopts the version it sends, sends the current
data, and cites the previous version, whatever the version strings are. -/
theorem dispatchUpdate_shape (r : Rec) (nonce : String) :
    (dispatchUpdate r nonce).1 = { r with version := some (dispatchUpdate r nonce).2.ver } ∧
    (dispatchUpdate r nonce).2.payload = r.rdata ∧
    (dispatchUpdate r nonce).2.prev = r.version :=
  ⟨rfl, rfl, rfl⟩

/-- Split an `Except.ok` of a pair into its components. -/
theorem ok_pair_parts {ε α β : Type} {x res : α} {y outs : β}
    (h : (Except.ok (x, y) : Except ε (α × β)) = Except.ok (res, outs)) :
    x = res ∧ y = outs := by
  have h2 := Except.ok.inj h
  exact ⟨congrArg Prod.fst h2, congrArg Prod.snd h2⟩

end Deepstream

namespace Deepstream

end Deepstream

namespace Deepstream

open JSVal

/-- Full characterization of a successful `set`: the queue is updated by
`pushQueue`; a reference-identical result is a no-op send-wise; a changed
result is adopted, and an `UPDATE` is dispatched iff the record is
ready. -/
theorem setOpE_ok_cases {r : Rec} {path : Option String} {d : JSVal}
    {n : String} {res : Rec} {outs : List SentUpd}
    (h : setOpE r path d n = .ok (res, outs)) :
    ∃ nv sm, setR r.rdata path d = .ok (nv, sm) ∧
      ((sm = true ∧ res = { r with patchQueue := pushQueue path r.patchQueue d } ∧
        outs = []) ∨
       (sm = false ∧ r.isReady = false ∧
        res = { r with patchQueue := pushQueue path r.patchQueue d, rdata := nv } ∧
        outs = []) ∨
       (sm = false ∧ r.isReady = true ∧
        res = (dispatchUpdate { r with patchQueue := pushQueue path r.patchQueue d, rdata := nv } n).1 ∧
        outs = [(dispatchUpdate { r with patchQueue := pushQueue path r.patchQueue d, rdata := nv } n).2])) := by
  rw [setOpE] at h
  split at h
  · simp at h
  split at h
  · simp at h
  split at h
  · simp at h
  revert h
  cases hsr : setR r.rdata path d with
  | error e =>
    intro h
    simp at h
  | ok vs =>
    obtain ⟨nv, sm⟩ := vs
    cases sm with
    | true =>
      intro h
      have h2 : Except.ok (({ r with patchQueue := pushQueue path r.patchQueue d }, [])
          : Rec × List SentUpd) = Except.ok (res, outs) := h
      obtain ⟨h3, h4⟩ := ok_pair_parts h2
      exact ⟨nv, true, rfl, Or.inl ⟨rfl, h3.symm, h4.symm⟩⟩
    | false =>
      cases hrd : r.isReady with
      | true =>
        intro h
        have h2 : Except.ok
            (((dispatchUpdate { r with patchQueue := pushQueue path r.patchQueue d, rdata := nv, isReady := true } n).1,
              [(dispatchUpdate { r with patchQueue := pushQueue path r.patchQueue d, rdata := nv, isReady := true } n).2])
             : Rec × List SentUpd) = Except.ok (res, outs) := h
        obtain ⟨h3, h4⟩ := ok_pair_parts h2
        exact ⟨nv, false, rfl, Or.inr (Or.inr ⟨rfl, rfl, h3.symm, h4.symm⟩)⟩
      | false =>
        intro h
        have h2 : Except.ok (({ r with patchQueue := pushQueue path r.patchQueue d, rdata := nv, isReady := false }, [])
            : Rec × List SentUpd) = Except.ok (res, outs) := h
        obtain ⟨h3, h4⟩ := ok_pair_parts h2
        exact ⟨nv, false, rfl, Or.inr (Or.inl ⟨rfl, rfl, h3.symm, h4.symm⟩)⟩

end Deepstream

namespace Deepstream

open JSVal

/-- Claim C10, counterexample. A pre-ready root `set(null)` (a legal
root-replacement: `typeof null === 'object'`) discards the patch queue, but
on the initial server `UPDATE` the record does **not** keep its local data:
`newValue = this._data || oldValue` falls back to the freshly parsed
snapshot because `null` is falsy, and no follow-up `UPDATE` is dispatched
even though the local `null` differs by reference from the snapshot. -/
theorem c10_counterexample :
    (setOp initRec none JSVal.null "x").1.patchQueue = none ∧
    (setOp initRec none JSVal.null "x").1.rdata = JSVal.null ∧
    msgOp (setOp initRec none JSVal.null "x").1 "1-A" (JSVal.obj [("x", JSVal.num 1)]) "n"
      = ({ version := some "1-A", rdata := JSVal.obj [("x", JSVal.num 1)],
           isReady := true, isDestroyed := false, isSubscribed := true,
           usages := 0, patchQueue := none }, []) ∧
    JSVal.obj [("x", JSVal.num 1)] ≠ JSVal.null := by
  have hset : setOp initRec none JSVal.null "x" =
      ({ initRec with patchQueue := none, rdata := JSVal.null }, []) := by
    simp [setOp, setOpE, setR, tokenize, patchR, pushQueue, initRec,
          isNullV, isObjV, isArrV, jsPrimEq,
          Bind.bind, Except.bind, pure, Except.pure]
  refine ⟨by rw [hset], by rw [hset], by rw [hset]; rfl, ?_⟩
  intro h
  cases h

/-- Claim C10, amended. For every record that is not yet ready, a
root-replacement `set` (a value and no path) discards the patch queue
entirely and stays unready; on the subsequent initial server `UPDATE`, the
record keeps its local data only when that data is truthy (a non-null
object) — a record whose root was set to `null` adopts the server snapshot
instead — marks itself ready with the server's version, and dispatches a
follow-up outbound `UPDATE` iff the resulting data is not
reference-identical to the freshly parsed snapshot (so never in the
fallback case, and in the truthy case exactly when the kept object is not
the same primitive — i.e. always, objects being fresh-parse distinct). -/
theorem c10_root_set_then_initial_update (r r1 : Rec) (d : JSVal) (n1 : String)
    (outs1 : List SentUpd) (ver : String) (snap : JSVal) (n2 : String)
    (hd : r.isDestroyed = false) (hr : r.isReady = false)
    (hset : setOpE r none d n1 = .ok (r1, outs1)) :
    r1.patchQueue = none ∧ outs1 = [] ∧ r1.isReady = false ∧
    r1.isDestroyed = false ∧
    (truthy r1.rdata = false →
      msgOp r1 ver snap n2 =
        ({ r1 with isReady := true, version := some ver, rdata := snap }, [])) ∧
    (truthy r1.rdata = true → jsPrimEq r1.rdata snap = false →
      msgOp r1 ver snap n2 =
        ((dispatchUpdate { r1 with isReady := true, version := some ver } n2).1,
         [(dispatchUpdate { r1 with isReady := true, version := some ver } n2).2])) ∧
    (truthy r1.rdata = true → jsPrimEq r1.rdata snap = true →
      msgOp r1 ver snap n2 =
        ({ r1 with isReady := true, version := some ver }, [])) := by
  obtain ⟨nv, sm, hsr, hcases⟩ := setOpE_ok_cases hset
  have hfacts : r1.patchQueue = none ∧ outs1 = [] ∧ r1.isReady = false ∧
      r1.isDestroyed = false := by
    rcases hcases with ⟨_, rfl, rfl⟩ | ⟨_, _, rfl, rfl⟩ | ⟨_, hready, _, _⟩
    · exact ⟨rfl, rfl, hr, hd⟩
    · exact ⟨rfl, rfl, hr, hd⟩
    · rw [hr] at hready
      cases hready
  obtain ⟨hq1, ho1, hr1, hd1⟩ := hfacts
  have hmsg : msgOp r1 ver snap n2 = onReadOp r1 ver snap n2 := by
    simp [msgOp, hd1, hr1]
  have honread : onReadOp r1 ver snap n2 =
      (let keep := truthy r1.rdata
       let newValue := if keep then r1.rdata else snap
       let sameRef := if keep then jsPrimEq r1.rdata snap else true
       let r2 : Rec := { r1 with isReady := true, version := some ver, rdata := newValue }
       if sameRef then (r2, [])
       else ((dispatchUpdate r2 n2).1, [(dispatchUpdate r2 n2).2])) := by
    rw [onReadOp, hq1]
  refine ⟨hq1, ho1, hr1, hd1, ?_, ?_, ?_⟩
  · intro ht
    rw [hmsg, honread]
    simp [ht]
  · intro ht hpe
    rw [hmsg, honread]
    simp [ht, hpe]
  · intro ht hpe
    rw [hmsg, honread]
    simp [ht, hpe]

theorem c10_root_set_then_initial_update_witness :
    setOpE initRec none (JSVal.obj [("a", JSVal.num 1)]) "x"
      = .ok ({ initRec with patchQueue := none, rdata := JSVal.obj [("a", JSVal.num 1)] }, []) ∧
    ({ initRec with patchQueue := none, rdata := JSVal.obj [("a", JSVal.num 1)] } : Rec).patchQueue = none := by
  have hset : setOpE initRec none (JSVal.obj [("a", JSVal.num 1)]) "x"
      = .ok ({ initRec with patchQueue := none, rdata := JSVal.obj [("a", JSVal.num 1)] }, []) := by
    simp [setOpE, setR, tokenize, patchR, pushQueue, initRec,
          isNullV, isObjV, isArrV, isUndefV, jsPrimEq, patchObj, jsKeys,
          Bind.bind, Except.bind, pure, Except.pure]
  refine ⟨hset, ?_⟩
  exact (c10_root_set_then_initial_update initRec _ (JSVal.obj [("a", JSVal.num 1)])
    "x" [] "1-A" (JSVal.obj []) "n" rfl rfl hset).1

end Deepstream

namespace Deepstream

open JSVal

/-- The method `_dispatchUpdate` on an unset version sends counter
`0 + 1 = 1`. -/
theorem dispatchUpdate_none {r : Rec} (nonce : String) (h : r.version = none) :
    (dispatchUpdate r nonce).2.ver = mkVer 1 nonce ∧
    (dispatchUpdate r nonce).1.version = some (mkVer 1 nonce) := by
  have hd1 : doubleAdd1 0 = ((1 : Nat) : Int) := by
    unfold doubleAdd1
    rw [if_pos (by omega)]
    rw [show ((0 : Int).toNat + 1) = 1 from rfl, roundDouble_exact (by norm_num)]
  have h1 : (dispatchUpdate r nonce).2.ver = mkVer 1 nonce := by
    simp only [dispatchUpdate, h]
    rw [hd1, intToStr_ofNat]
    rfl
  exact ⟨h1, by rw [(dispatchUpdate_shape r nonce).1, h1]⟩

/-- The method `_dispatchUpdate` on a canonical version token `mkVer c n0`
parses the counter to the double `roundDouble c` and sends that double
plus one, rounded again, with the fresh nonce — adopting the result. -/
theorem dispatchUpdate_mkVer_rounded {r : Rec} (c : Nat) (n0 nonce : String)
    (h : r.version = some (mkVer c n0)) :
    (dispatchUpdate r nonce).2.ver = mkVer (roundDouble (roundDouble c + 1)) nonce ∧
    (dispatchUpdate r nonce).1.version
      = some (mkVer (roundDouble (roundDouble c + 1)) nonce) := by
  have h1 : (dispatchUpdate r nonce).2.ver
      = mkVer (roundDouble (roundDouble c + 1)) nonce := by
    simp only [dispatchUpdate, h]
    rw [if_neg (mkVer_ne_empty c n0), firstField_mkVer, parseIntJS_natToStr]
    simp only [doubleAdd1_ofNat, intToStr_ofNat]
    rfl
  exact ⟨h1, by rw [(dispatchUpdate_shape r nonce).1, h1]⟩

/-- Below `2 ^ 53` the increment is exact: counter `c` sends counter
`c + 1`. -/
theorem dispatchUpdate_mkVer {r : Rec} (c : Nat) (n0 nonce : String)
    (h : r.version = some (mkVer c n0)) (hc : c + 1 ≤ 2 ^ 53) :
    (dispatchUpdate r nonce).2.ver = mkVer (c + 1) nonce ∧
    (dispatchUpdate r nonce).1.version = some (mkVer (c + 1) nonce) := by
  have h2 := dispatchUpdate_mkVer_rounded c n0 nonce h
  rwa [roundDouble_exact (by omega : c ≤ 2 ^ 53), roundDouble_exact hc] at h2

/-- The counter parsed from an outbound version string
(`parseInt(version.split('-')[0], 10)`). -/
def sentCtr (m : SentUpd) : Option Int := parseIntJS (firstField m.ver)

theorem sentCtr_eq {m : SentUpd} {c : Nat} {n0 : String} (h : m.ver = mkVer c n0) :
    sentCtr m = some ((roundDouble c : Nat) : Int) := by
  unfold sentCtr
  rw [h, firstField_mkVer, parseIntJS_natToStr]

/-- A non-dropped inbound version has a counter at least the local one
(exact below `2 ^ 53`). -/
theorem compareVersions_false_counter_le {cv cw : Nat} {nv nw : String}
    (hv : cv ≤ 2 ^ 53) (hw : cw ≤ 2 ^ 53)
    (h : compareVersions (some (mkVer cv nv)) (some (mkVer cw nw)) = false) :
    cv ≤ cw := by
  rw [compareVersions_mkVer_exact nv nw hv hw] at h
  unfold specVersionLe at h
  simp only [Bool.or_eq_false_iff, decide_eq_false_iff_not] at h
  omega

end Deepstream

namespace Deepstream

open JSVal

theorem chain'_snoc_of_bound {cs : List Nat} {c m : Nat} (hch : cs.Chain' (· < ·))
    (hb : ∀ x ∈ cs, x ≤ c) (hcm : c < m) : (cs ++ [m]).Chain' (· < ·) := by
  rw [List.chain'_append]
  refine ⟨hch, List.chain'_singleton m, ?_⟩
  intro x hx y hy
  simp only [List.head?_cons, Option.mem_def, Option.some.injEq] at hy
  subst hy
  obtain ⟨hne, hxl⟩ := List.mem_getLast?_eq_getLast hx
  subst hxl
  exact lt_of_le_of_lt (hb _ (List.getLast_mem hne)) hcm

/-- The counter room an operation needs `rem` steps before the end of the
run: an inbound `UPDATE` counter must leave space for one increment per
remaining operation below `2 ^ 53`, the range where the double arithmetic
of `parseInt` and `+ 1` is exact.  Local writes and destruction need
nothing. -/
def opCtrOk (rem : Nat) : ROp → Prop
  | .rupdate c _ _ _ => c + rem ≤ 2 ^ 53
  | _ => True

theorem opCtrOk_mono {rem : Nat} {op : ROp} (h : opCtrOk (rem + 1) op) :
    opCtrOk rem op := by
  cases op with
  | rupdate c vn p dn =>
    unfold opCtrOk at h ⊢
    omega
  | rset p d n => trivial
  | rdestroy => trivial

/-- The canonical-version part of the run invariant: an unset version means
nothing was sent and the record is not ready; a set version is a §3 token
whose counter dominates every sent counter and leaves room for one
increment per remaining operation below `2 ^ 53`. -/
def verOk (v : Option String) (ready : Bool) (cs : List Nat) (rem : Nat) : Prop :=
  match v with
  | none => cs = [] ∧ ready = false
  | some s => ∃ c n0, s = mkVer c n0 ∧ (∀ x ∈ cs, x ≤ c) ∧ c + rem ≤ 2 ^ 53

/-- The run invariant for the outbound-counter monotonicity proof, with
`rem` operations left to run. -/
def runInv (r : Rec) (cs : List Nat) (rem : Nat) : Prop :=
  cs.Chain' (· < ·) ∧ verOk r.version r.isReady cs rem ∧
  (r.isReady = false → r.version = none)

theorem runInv_initRec (rem : Nat) : runInv initRec [] rem :=
  ⟨List.chain'_nil, ⟨rfl, rfl⟩, fun _ => rfl⟩

theorem runInv_mono {r : Rec} {cs : List Nat} {rem : Nat}
    (h : runInv r cs (rem + 1)) : runInv r cs rem := by
  obtain ⟨hch, hver, hnr⟩ := h
  refine ⟨hch, ?_, hnr⟩
  cases hv : r.version with
  | none =>
    rw [hv] at hver
    exact hver
  | some vs =>
    rw [hv] at hver
    obtain ⟨c, n0, hs, hb, hc⟩ := hver
    exact ⟨c, n0, hs, hb, by omega⟩

/-- One `set` preserves the invariant, emitting either nothing or one
canonical counter `c + 1`. -/
theorem setOp_inv (r : Rec) (cs : List Nat) (rem : Nat) (p : Option String)
    (d : JSVal) (n : String) (hInv : runInv r cs (rem + 1)) :
    ∃ out : List Nat,
      (setOp r p d n).2.map sentCtr = out.map (fun c => (some (Int.ofNat c) : Option Int)) ∧
      runInv (setOp r p d n).1 (cs ++ out) rem := by
  unfold setOp
  cases hE : setOpE r p d n with
  | error e =>
    refine ⟨[], ?_, ?_⟩
    · simp only [List.map_nil]
      split
      · rfl
      · rfl
    · simp only [List.append_nil]
      split
      · exact runInv_mono hInv
      · exact runInv_mono hInv
  | ok res =>
    obtain ⟨r', outs⟩ := res
    obtain ⟨nv, sm, hsr, hcases⟩ := setOpE_ok_cases hE
    rcases hcases with ⟨hsm, rfl, rfl⟩ | ⟨hsm, hrd, rfl, rfl⟩ | ⟨hsm, hrd, hres, houts⟩
    · exact ⟨[], by simp, by simpa using runInv_mono hInv⟩
    · exact ⟨[], by simp, by simpa using runInv_mono hInv⟩
    · obtain ⟨hch, hver, hnr⟩ := hInv
      cases hv : r.version with
      | none =>
        rw [hv] at hver
        obtain ⟨-, hnready⟩ := hver
        rw [hrd] at hnready
        cases hnready
      | some s =>
        rw [hv] at hver
        obtain ⟨c, n0, rfl, hbound, hcrem⟩ := hver
        have hc1 : c + 1 ≤ 2 ^ 53 := by omega
        have hqv : ({ r with patchQueue := pushQueue p r.patchQueue d, rdata := nv } : Rec).version
            = some (mkVer c n0) := hv
        obtain ⟨hm, hadopt⟩ := dispatchUpdate_mkVer c n0 n hqv hc1
        refine ⟨[c + 1], ?_, ?_, ?_, ?_⟩
        · simp only [houts, List.map_cons, List.map_nil, sentCtr_eq hm,
                     roundDouble_exact hc1]
          norm_num
        · exact chain'_snoc_of_bound hch hbound (by omega)
        · rw [hres, hadopt]
          refine ⟨c + 1, n, rfl, ?_, by omega⟩
          intro x hx
          rcases List.mem_append.mp hx with hx | hx
          · exact le_trans (hbound x hx) (by omega)
          · simp at hx
            omega
        · intro hfalse
          rw [hres] at hfalse
          have : r.isReady = true := hrd
          rw [show ((dispatchUpdate { r with patchQueue := pushQueue p r.patchQueue d, rdata := nv } n).1).isReady = r.isReady from rfl] at hfalse
          rw [hfalse] at this
          cases this

end Deepstream

namespace Deepstream

open JSVal

/-- One inbound `UPDATE` carrying a canonical version within the exact
counter range preserves the invariant, emitting either nothing or one
canonical counter. -/
theorem msgOp_inv (r : Rec) (cs : List Nat) (rem : Nat) (c : Nat) (vn : String)
    (parsed : JSVal) (dn : String) (hInv : runInv r cs (rem + 1))
    (hcb : c + (rem + 1) ≤ 2 ^ 53) :
    ∃ out : List Nat,
      (msgOp r (mkVer c vn) parsed dn).2.map sentCtr = out.map (fun x => (some (Int.ofNat x) : Option Int)) ∧
      runInv (msgOp r (mkVer c vn) parsed dn).1 (cs ++ out) rem := by
  have hc1 : c + 1 ≤ 2 ^ 53 := by omega
  by_cases hd : r.isDestroyed = true
  · have h1 : msgOp r (mkVer c vn) parsed dn = (r, []) := by
      unfold msgOp
      rw [hd]
      simp
    rw [h1]
    exact ⟨[], by simp, by simpa using runInv_mono hInv⟩
  · have hd' : r.isDestroyed = false := by simpa using hd
    by_cases hr : r.isReady = true
    · -- ready: `_applyUpdate`
      have h1 : msgOp r (mkVer c vn) parsed dn = (applyUpdateOp r (mkVer c vn) parsed, []) := by
        unfold msgOp
        rw [hd', hr]
        simp
      rw [h1]
      obtain ⟨hch, hver, hnr⟩ := hInv
      cases hv : r.version with
      | none =>
        rw [hv] at hver
        obtain ⟨-, hnready⟩ := hver
        rw [hr] at hnready
        cases hnready
      | some s =>
        rw [hv] at hver
        obtain ⟨cv, nv0, rfl, hbound, hcvrem⟩ := hver
        have hcv53 : cv ≤ 2 ^ 53 := by omega
        refine ⟨[], by simp, ?_⟩
        simp only [List.append_nil]
        unfold applyUpdateOp
        rw [hv]
        by_cases hcmp : compareVersions (some (mkVer cv nv0)) (some (mkVer c vn)) = true
        · rw [if_pos hcmp]
          refine ⟨hch, ?_, hnr⟩
          rw [hv]
          exact ⟨cv, nv0, rfl, hbound, by omega⟩
        · have hcmp' := eq_false_of_ne_true hcmp
          rw [if_neg (by rw [hcmp']; simp)]
          have hle := compareVersions_false_counter_le hcv53 (by omega : c ≤ 2 ^ 53) hcmp'
          refine ⟨hch, ⟨c, vn, rfl, ?_, by omega⟩, ?_⟩
          · intro x hx
            exact le_trans (hbound x hx) hle
          · intro hfalse
            rw [show ({ r with version := some (mkVer c vn), rdata := (patchR r.rdata parsed).1 } : Rec).isReady = r.isReady from rfl, hr] at hfalse
            cases hfalse
    · -- not ready: `_onRead`
      have hr' : r.isReady = false := by simpa using hr
      have hvn : r.version = none := hInv.2.2 hr'
      have hcs : cs = [] := by
        have h2 := hInv.2.1
        rw [hvn] at h2
        exact h2.1
      subst hcs
      have h1 : msgOp r (mkVer c vn) parsed dn = onReadOp r (mkVer c vn) parsed dn := by
        unfold msgOp
        rw [hd', hr']
        simp
      rw [h1]
      cases hpq : r.patchQueue with
      | some q =>
        rw [onReadOp, hpq]
        cases hrep : replayQueue parsed q with
        | error e =>
          simp only [hrep]
          exact ⟨[], by simp, by simpa using runInv_mono hInv⟩
        | ok vs =>
          obtain ⟨nvl, sameAll⟩ := vs
          simp only [hrep]
          cases sameAll with
          | true =>
            rw [if_pos rfl]
            refine ⟨[], by simp, ?_, ?_, ?_⟩
            · simp
            · exact ⟨c, vn, rfl, by simp, by omega⟩
            · intro hfalse
              cases hfalse
          | false =>
            rw [if_neg (by simp : ¬(false = true))]
            have hqv : ({ r with patchQueue := none, isReady := true, version := some (mkVer c vn), rdata := nvl } : Rec).version = some (mkVer c vn) := rfl
            obtain ⟨hm, hadopt⟩ := dispatchUpdate_mkVer c vn dn hqv hc1
            refine ⟨[c + 1], ?_, ?_, ?_, ?_⟩
            · simp only [List.map_cons, List.map_nil, sentCtr_eq hm, roundDouble_exact hc1]
              norm_num
            · simp
            · rw [hadopt]
              refine ⟨c + 1, dn, rfl, ?_, by omega⟩
              intro x hx
              simp at hx
              omega
            · intro hfalse
              cases hfalse
      | none =>
        rw [onReadOp, hpq]
        by_cases hsame : (if truthy r.rdata then jsPrimEq r.rdata parsed else true) = true
        · rw [if_pos hsame]
          refine ⟨[], by simp, ?_, ?_, ?_⟩
          · simp
          · exact ⟨c, vn, rfl, by simp, by omega⟩
          · intro hfalse
            cases hfalse
        · rw [if_neg hsame]
          have hqv : ({ r with isReady := true, version := some (mkVer c vn), rdata := if truthy r.rdata then r.rdata else parsed, patchQueue := none } : Rec).version = some (mkVer c vn) := rfl
          obtain ⟨hm, hadopt⟩ := dispatchUpdate_mkVer c vn dn hqv hc1
          refine ⟨[c + 1], ?_, ?_, ?_, ?_⟩
          · simp only [List.map_cons, List.map_nil, sentCtr_eq hm, roundDouble_exact hc1]
            norm_num
          · simp
          · rw [hadopt]
            refine ⟨c + 1, dn, rfl, ?_, by omega⟩
            intro x hx
            simp at hx
            omega
          · intro hfalse
            cases hfalse

end Deepstream

namespace Deepstream

open JSVal

theorem destroy_inv (r : Rec) (cs : List Nat) (rem : Nat) (hInv : runInv r cs rem) :
    runInv (destroyOp r).1 cs rem := hInv

theorem stepR_inv (r : Rec) (cs : List Nat) (rem : Nat) (op : ROp)
    (hInv : runInv r cs (rem + 1)) (hop : opCtrOk (rem + 1) op) :
    ∃ out : List Nat,
      (stepR r op).2.map sentCtr = out.map (fun c => (some (Int.ofNat c) : Option Int)) ∧
      runInv (stepR r op).1 (cs ++ out) rem := by
  cases op with
  | rset p d n => exact setOp_inv r cs rem p d n hInv
  | rupdate c vn parsed dn => exact msgOp_inv r cs rem c vn parsed dn hInv hop
  | rdestroy => exact ⟨[], rfl, by simpa using destroy_inv r cs rem (runInv_mono hInv)⟩

theorem runR_cons (r : Rec) (op : ROp) (ops : List ROp) :
    runR r (op :: ops) =
      ((runR (stepR r op).1 ops).1, (stepR r op).2 ++ (runR (stepR r op).1 ops).2) := rfl

theorem runR_nil (r : Rec) : runR r [] = (r, []) := rfl

theorem runR_inv (ops : List ROp) : ∀ (r : Rec) (cs : List Nat),
    runInv r cs ops.length → (∀ op ∈ ops, opCtrOk ops.length op) →
    ∃ out : List Nat,
      (runR r ops).2.map sentCtr = out.map (fun c => (some (Int.ofNat c) : Option Int)) ∧
      runInv (runR r ops).1 (cs ++ out) 0 := by
  induction ops with
  | nil =>
    intro r cs h hops
    exact ⟨[], by simp [runR_nil], by simpa [runR_nil] using h⟩
  | cons op ops ih =>
    intro r cs h hops
    obtain ⟨out1, hmap1, hinv1⟩ := stepR_inv r cs ops.length op h (hops op (by simp))
    obtain ⟨out2, hmap2, hinv2⟩ := ih (stepR r op).1 (cs ++ out1) hinv1
      (fun o ho => opCtrOk_mono (hops o (by simp [ho])))
    refine ⟨out1 ++ out2, ?_, ?_⟩
    · rw [runR_cons]
      simp only [List.map_append, hmap1, hmap2]
    · rw [runR_cons]
      rw [← List.append_assoc]
      exact hinv2

end Deepstream

namespace Deepstream

open JSVal

/-- Claim C2, amended. The method `_dispatchUpdate` adopts the version it
sends, carries the current data and the previous version, sends counter
`1` on an unset version, and sends counter `c + 1` on a canonical local
counter `c` with `c + 1 ≤ 2 ^ 53` (first conjunct — `parseInt` and `+ 1`
operate on binary64 doubles, which are exact only up to `2 ^ 53`); and
over every sequence of record operations (local `set`s, inbound `UPDATE`s
with §3 version tokens, destruction) whose inbound counters leave room for
one increment per subsequent operation below `2 ^ 53` (`opCtrOk`), the
counters of the outbound `UPDATE` messages are strictly monotonically
increasing (second conjunct). -/
theorem c2_outbound_counter_monotone_amended :
    (∀ (r : Rec) (nonce : String),
      ((dispatchUpdate r nonce).1.version = some (dispatchUpdate r nonce).2.ver) ∧
      ((dispatchUpdate r nonce).2.prev = r.version) ∧
      ((dispatchUpdate r nonce).2.payload = r.rdata) ∧
      (r.version = none → (dispatchUpdate r nonce).2.ver = mkVer 1 nonce) ∧
      (∀ (c : Nat) (n0 : String), r.version = some (mkVer c n0) → c + 1 ≤ 2 ^ 53 →
        (dispatchUpdate r nonce).2.ver = mkVer (c + 1) nonce)) ∧
    (∀ ops : List ROp,
      (∀ op ∈ ops, opCtrOk ops.length op) →
      ∃ cs : List Nat,
        (runR initRec ops).2.map sentCtr = cs.map (fun c => (some (Int.ofNat c) : Option Int)) ∧
        cs.Chain' (· < ·)) := by
  constructor
  · intro r nonce
    refine ⟨?_, (dispatchUpdate_shape r nonce).2.2, (dispatchUpdate_shape r nonce).2.1,
      fun h => (dispatchUpdate_none nonce h).1,
      fun c n0 h hc => (dispatchUpdate_mkVer c n0 nonce h hc).1⟩
    rw [(dispatchUpdate_shape r nonce).1]
  · intro ops hops
    obtain ⟨out, hmap, hinv⟩ := runR_inv ops initRec [] (runInv_initRec ops.length) hops
    exact ⟨out, hmap, by simpa using hinv.1⟩

theorem c2_outbound_counter_monotone_amended_witness :
    ∃ cs : List Nat,
      (runR initRec [ROp.rset none JSVal.null "w"]).2.map sentCtr
        = cs.map (fun c => (some (Int.ofNat c) : Option Int)) ∧
      cs.Chain' (· < ·) :=
  c2_outbound_counter_monotone_amended.2 [ROp.rset none JSVal.null "w"]
    (by
      intro op hop
      simp only [List.mem_singleton] at hop
      subst hop
      trivial)

end Deepstream

namespace Deepstream

open JSVal

/-- The null short-circuit of `patch`: when either operand is `null` the
new value is returned, reference-identical only when both are the same
primitive. -/
theorem patchR_null_either {o n : JSVal} (h : (isNullV o || isNullV n) = true) :
    patchR o n = (n, jsPrimEq n o) := by
  rw [patchR.eq_def, if_pos h]

/-- A live, ready record's root `set` that changes the data dispatches
exactly one `UPDATE`. -/
theorem setOp_ready_change {r : Rec} {d : JSVal} {n : String} {nv : JSVal}
    (hd : r.isDestroyed = false)
    (hobj : (isObjV d || isArrV d || isNullV d) = true)
    (hr : r.isReady = true)
    (hsr : setR r.rdata none d = .ok (nv, false)) :
    setOp r none d n =
      ((dispatchUpdate { r with patchQueue := pushQueue none r.patchQueue d, rdata := nv } n).1,
       [(dispatchUpdate { r with patchQueue := pushQueue none r.patchQueue d, rdata := nv } n).2]) := by
  have hE : setOpE r none d n =
      .ok ((dispatchUpdate { r with patchQueue := pushQueue none r.patchQueue d, rdata := nv } n).1,
           [(dispatchUpdate { r with patchQueue := pushQueue none r.patchQueue d, rdata := nv } n).2]) := by
    rw [setOpE]
    rw [if_neg (by rw [hd]; simp)]
    rw [if_neg (by rw [hobj]; simp)]
    rw [if_neg (by simp)]
    simp [hsr, hr]
  unfold setOp
  rw [hE]

end Deepstream

namespace Deepstream

open JSVal

/-- A record that went ready on an initial empty snapshot with server
version `"0-s"`: the starting point of the monotonicity counterexample
run. -/
def cexR1 : Rec :=
  { version := some (mkVer 0 "s"), rdata := JSVal.null, isReady := true,
    isDestroyed := false, isSubscribed := true, usages := 0, patchQueue := none }

/-- The object written by the first `set` of the counterexample run. -/
def cexD : JSVal := JSVal.obj [("a", JSVal.num 1)]

/-- The record after adopting the inbound version `"9007199254740993-z"`. -/
def cexR2 : Rec := { cexR1 with version := some (mkVer (2 ^ 53 + 1) "z") }

/-- The record as the first `set` hands it to `_dispatchUpdate`. -/
def cexR2x : Rec := { cexR2 with patchQueue := none, rdata := cexD }

/-- The record after the first dispatched `UPDATE`. -/
def cexR3 : Rec := (dispatchUpdate cexR2x "n1").1

/-- The record as the second `set` hands it to `_dispatchUpdate`. -/
def cexR3x : Rec := { cexR3 with patchQueue := none, rdata := JSVal.null }

theorem cexStep1 : stepR initRec (ROp.rupdate 0 "s" JSVal.null "x") = (cexR1, []) := rfl

/-- The inbound token `"9007199254740993-z"` wins the gate against
`"0-s"`. -/
theorem cexGate : compareVersions (some (mkVer 0 "s")) (some (mkVer (2 ^ 53 + 1) "z")) = false := by
  rw [compareVersions_mkVer, roundDouble_two_pow_53_succ,
      roundDouble_exact (by norm_num : (0 : Nat) ≤ 2 ^ 53)]
  rw [decide_eq_false (by omega : ¬ ((2 : Nat) ^ 53 < 0)),
      decide_eq_false (by omega : ¬ ((0 : Nat) = 2 ^ 53 + 1))]
  simp

theorem cexStep2 : stepR cexR1 (ROp.rupdate (2 ^ 53 + 1) "z" JSVal.null "x") = (cexR2, []) := by
  show msgOp cexR1 (mkVer (2 ^ 53 + 1) "z") JSVal.null "x" = (cexR2, [])
  have hm : msgOp cexR1 (mkVer (2 ^ 53 + 1) "z") JSVal.null "x"
      = (applyUpdateOp cexR1 (mkVer (2 ^ 53 + 1) "z") JSVal.null, []) := rfl
  rw [hm]
  unfold applyUpdateOp
  rw [show cexR1.version = some (mkVer 0 "s") from rfl]
  rw [cexGate]
  rw [if_neg (by simp)]
  rw [show cexR1.rdata = JSVal.null from rfl]
  rw [@patchR_null_either JSVal.null JSVal.null (by rfl)]
  rfl

theorem cexSetR3 : setR cexR2.rdata none cexD = .ok (cexD, false) := by
  show Except.ok (patchR JSVal.null cexD) = Except.ok (cexD, false)
  rw [@patchR_null_either JSVal.null cexD (by rfl)]
  rfl

theorem cexStep3 : stepR cexR2 (ROp.rset none cexD "n1")
    = ((dispatchUpdate cexR2x "n1").1, [(dispatchUpdate cexR2x "n1").2]) := by
  show setOp cexR2 none cexD "n1" = _
  rw [setOp_ready_change (by rfl) (by rfl) (by rfl) cexSetR3]
  rfl

theorem cexSetR4 : setR cexR3.rdata none JSVal.null = .ok (JSVal.null, false) := by
  show Except.ok (patchR cexD JSVal.null) = Except.ok (JSVal.null, false)
  rw [@patchR_null_either cexD JSVal.null (by rfl)]
  rfl

theorem cexStep4 : stepR cexR3 (ROp.rset none JSVal.null "n2")
    = ((dispatchUpdate cexR3x "n2").1, [(dispatchUpdate cexR3x "n2").2]) := by
  show setOp cexR3 none JSVal.null "n2" = _
  rw [setOp_ready_change (by rfl) (by rfl) (by rfl) cexSetR4]
  rfl

/-- The first dispatched `UPDATE` of the counterexample run carries counter
`roundDouble (roundDouble (2 ^ 53 + 1) + 1) = 2 ^ 53`. -/
theorem cexSent1 : (dispatchUpdate cexR2x "n1").2.ver = mkVer (2 ^ 53) "n1" ∧
    (dispatchUpdate cexR2x "n1").1.version = some (mkVer (2 ^ 53) "n1") := by
  have hv2x : cexR2x.version = some (mkVer (2 ^ 53 + 1) "z") := rfl
  have hd3 := dispatchUpdate_mkVer_rounded (2 ^ 53 + 1) "z" "n1" hv2x
  simp only [roundDouble_two_pow_53_succ] at hd3
  exact hd3

/-- The second dispatched `UPDATE` again carries counter `2 ^ 53`:
`roundDouble (2 ^ 53 + 1) = 2 ^ 53`. -/
theorem cexSent2 : (dispatchUpdate cexR3x "n2").2.ver = mkVer (2 ^ 53) "n2" := by
  have hv3x : cexR3x.version = some (mkVer (2 ^ 53) "n1") := cexSent1.2
  have hd4 := dispatchUpdate_mkVer_rounded (2 ^ 53) "n1" "n2" hv3x
  rw [roundDouble_exact (le_refl ((2 : Nat) ^ 53))] at hd4
  rw [roundDouble_two_pow_53_succ] at hd4
  exact hd4.1

/-- Claim C2, counterexample. `parseInt` and `+ 1` operate on IEEE-754
binary64 doubles: after the record adopts the inbound counter `2 ^ 53 + 1`
(the token `"9007199254740993-z"`), a data-changing `set` parses the
counter to the double `2 ^ 53` and sends counter `2 ^ 53` (the exact sum
`2 ^ 53 + 1` rounds back down to `2 ^ 53`), and the next `set` does the
same — two consecutive outbound `UPDATE`s carry the equal counter
`9007199254740992`, so this run's outbound counters match no strictly
increasing counter list: outbound versions are not strictly monotonically
increasing in the counter component. -/
theorem c2_counterexample :
    ((runR initRec
        [ROp.rupdate 0 "s" JSVal.null "x",
         ROp.rupdate (2 ^ 53 + 1) "z" JSVal.null "x",
         ROp.rset none cexD "n1",
         ROp.rset none JSVal.null "n2"]).2.map sentCtr
       = [some ((2 ^ 53 : Nat) : Int), some ((2 ^ 53 : Nat) : Int)]) ∧
    (∀ cs : List Nat,
      cs.map (fun c => (some (Int.ofNat c) : Option Int))
          = [some ((2 ^ 53 : Nat) : Int), some ((2 ^ 53 : Nat) : Int)] →
      ¬ cs.Chain' (· < ·)) := by
  constructor
  · have hc3 : (dispatchUpdate cexR2x "n1").1 = cexR3 := rfl
    have hrun : (runR initRec
        [ROp.rupdate 0 "s" JSVal.null "x",
         ROp.rupdate (2 ^ 53 + 1) "z" JSVal.null "x",
         ROp.rset none cexD "n1",
         ROp.rset none JSVal.null "n2"]).2
        = [(dispatchUpdate cexR2x "n1").2, (dispatchUpdate cexR3x "n2").2] := by
      rw [runR_cons, cexStep1]
      rw [show ((cexR1, ([] : List SentUpd)).1) = cexR1 from rfl,
          show ((cexR1, ([] : List SentUpd)).2) = ([] : List SentUpd) from rfl]
      rw [runR_cons, cexStep2]
      rw [show ((cexR2, ([] : List SentUpd)).1) = cexR2 from rfl,
          show ((cexR2, ([] : List SentUpd)).2) = ([] : List SentUpd) from rfl]
      rw [runR_cons, cexStep3]
      simp only []
      rw [hc3]
      rw [runR_cons, cexStep4]
      simp only [runR_nil]
      simp
    rw [hrun]
    simp only [List.map_cons, List.map_nil, sentCtr_eq cexSent1.1, sentCtr_eq cexSent2,
               roundDouble_exact (le_refl ((2 : Nat) ^ 53))]
  · intro cs hmap hch
    cases cs with
    | nil => simp at hmap
    | cons a t =>
      cases t with
      | nil => simp at hmap
      | cons b t2 =>
        cases t2 with
        | cons x t3 => simp at hmap
        | nil =>
          simp only [List.map_cons, List.map_nil, List.cons.injEq, and_true,
                     Option.some.injEq] at hmap
          obtain ⟨ha, hb⟩ := hmap
          have ha2 : a = 2 ^ 53 := by
            rw [Int.ofNat_eq_natCast] at ha
            exact_mod_cast ha
          have hb2 : b = 2 ^ 53 := by
            rw [Int.ofNat_eq_natCast] at hb
            exact_mod_cast hb
          rw [List.chain'_cons] at hch
          have hab := hch.1
          omega

end Deepstream
